import Mathlib

/-!
Verification model of `libmproxy/flow.py`: flow records, the flow store with
its filtered view, sticky-session policies, the server-playback engine, the
flow-master event dispatcher, and the flow-log reader, embedded as pure Lean
functions.  Python objects are modelled as values carrying an explicit
identity (`rid` / `fid`) where object identity is used as a dictionary key or
for aliasing; in-place mutation is modelled by returning the updated value.
-/

namespace Mitm

/-- Serializable part of an HTTP request, as produced by the external
`proxy.Request.get_state` (spec section 6: host, port, scheme, method, path,
headers, content).  Headers are an ordered multimap from name to a list of
values. -/
structure RequestData where
  host : String
  port : Nat
  scheme : String
  method : String
  path : String
  headers : List (String × String)
  content : String
deriving DecidableEq

/-- Header multimap lookup, modelling the external `ODictCaseless.__getitem__`:
the ordered list of values stored under a name, case-insensitively; the empty
list when the name is absent. -/
def headerGet (hs : List (String × String)) (k : String) : List String :=
  (hs.filter (fun p => p.1.toLower == k.toLower)).map (·.2)

/-- Header presence test (`k in headers`). -/
def headerHas (hs : List (String × String)) (k : String) : Bool :=
  hs.any (fun p => p.1.toLower == k.toLower)

/-- Header multimap update (`headers[k] = valuelist`): drop the old entries of
the name and append one pair per new value. -/
def headerSet (hs : List (String × String)) (k : String) (vs : List String) :
    List (String × String) :=
  hs.filter (fun p => p.1.toLower != k.toLower) ++ vs.map (fun v => (k, v))

/-- Header deletion (`del headers[k]`). -/
def headerDel (hs : List (String × String)) (k : String) : List (String × String) :=
  hs.filter (fun p => p.1.toLower != k.toLower)

/-- A live request object: its serializable data plus the object identity
`rid` (modelling the Python object used as a dictionary key), the transport
acknowledgement marker `acked` (from the external `controller.Msg`, initially
false, set by `ack`), and the flags set by policies (`stickycookie`) and by
replay (`replay`, set by the external `set_replay`). -/
structure Request where
  d : RequestData
  rid : Nat
  acked : Bool
  stickycookie : Bool
  replay : Bool
deriving DecidableEq

/-- Serializable part of an HTTP response (spec section 6: status code,
headers, content); the back-reference to the request is kept outside, as
`proxy.Response.from_state` receives the request separately. -/
structure ResponseData where
  code : Nat
  headers : List (String × String)
  content : String
deriving DecidableEq

/-- A live response object: data, back-reference to its originating request,
acknowledgement marker and replay flag. -/
structure Response where
  d : ResponseData
  request : Option Request
  acked : Bool
  replay : Bool
deriving DecidableEq

/-- Serializable part of an error (spec section 6: message). -/
structure ErrorData where
  msg : String
deriving DecidableEq

/-- A live error object (`proxy.Error`): originating request (absent for
connection-level errors), message, acknowledgement marker. -/
structure Error where
  request : Option Request
  msg : String
  acked : Bool
deriving DecidableEq

/-- A compiled filter expression, as returned by the external `filt.parse`:
a predicate callable on a request or on a response. -/
structure FiltPred where
  onReq : Request → Bool
  onResp : Response → Bool

/-- Version tuple of the external `version` module (`version.IVERSION`);
the concrete value is irrelevant to every claim. -/
def IVERSION : List Nat := [0, 6]

/-- A flow snapshot, as produced by `Flow.get_state`: the serializable data
of the three artifacts, the version tuple, and the (recursively nested)
backup snapshot. -/
inductive FlowState where
  | mk (request : Option RequestData) (response : Option ResponseData)
       (error : Option ErrorData) (version : List Nat)
       (backup : Option FlowState)

def FlowState.request : FlowState → Option RequestData
  | .mk r _ _ _ _ => r

def FlowState.response : FlowState → Option ResponseData
  | .mk _ s _ _ _ => s

def FlowState.error : FlowState → Option ErrorData
  | .mk _ _ e _ _ => e

def FlowState.version : FlowState → List Nat
  | .mk _ _ _ v _ => v

def FlowState.backup : FlowState → Option FlowState
  | .mk _ _ _ _ b => b

/-- A flow record (`class Flow`): a request (absent only transiently, e.g.
inside `from_state`), optional response and error, the interception flag and
the single-level backup snapshot.  `fid` models the Python object identity
(flows are stored by reference in the state's list, map and view). -/
structure Flow where
  fid : Nat
  request : Option Request
  response : Option Response
  error : Option Error
  intercepting : Bool
  _backup : Option FlowState

/-- `Flow.get_state`: snapshot of the flow.  When `nobackup` is set the
`backup` field of the snapshot is `none`, otherwise it is the stored backup
verbatim. -/
def Flow.get_state (f : Flow) (nobackup : Bool) : FlowState :=
  .mk (f.request.map (·.d)) (f.response.map (·.d))
      (f.error.map (fun e => ⟨e.msg⟩)) IVERSION
      (if nobackup then none else f._backup)

/-- `Flow.load_state`: the backup field is restored verbatim; each artifact's
data is loaded into the existing live object when one is present (preserving
its identity and acknowledgement marker), and a fresh object is created
otherwise (`proxy.*.from_state`; fresh objects get identity 0 and an unset
acknowledgement marker).  A snapshot with `request = none` is modelled as
clearing the request (CPython would raise inside the external loader there).
A fresh response's back-reference is the just-loaded request, mirroring
`proxy.Response.from_state(self.request, state["response"])` running after
the request has been loaded. -/
def Flow.load_state (f : Flow) (s : FlowState) : Flow :=
  let req' : Option Request :=
    match s.request with
    | some rd =>
      match f.request with
      | some r => some { r with d := rd }
      | none => some { d := rd, rid := 0, acked := false, stickycookie := false, replay := false }
    | none => none
  let resp' : Option Response :=
    match s.response with
    | some sd =>
      match f.response with
      | some resp => some { resp with d := sd }
      | none => some { d := sd, request := req', acked := false, replay := false }
    | none => none
  let err' : Option Error :=
    match s.error with
    | some ed =>
      match f.error with
      | some e => some { e with msg := ed.msg }
      | none => some { request := none, msg := ed.msg, acked := false }
    | none => none
  { f with _backup := s.backup, request := req', response := resp', error := err' }

/-- `Flow.from_state` (classmethod): `klass(None)` followed by `load_state`. -/
def Flow.from_state (s : FlowState) : Flow :=
  Flow.load_state ⟨0, none, none, none, false, none⟩ s

/-- `Flow.modified`: true iff a backup is stored (`if self._backup:`; the
stored dictionary is never empty, so Python truthiness is `isSome`). -/
def Flow.modified (f : Flow) : Bool :=
  f._backup.isSome

/-- `Flow.backup`: store a snapshot taken with `nobackup=True`,
unconditionally overwriting any previously stored snapshot. -/
def Flow.backup (f : Flow) : Flow :=
  { f with _backup := some (f.get_state true) }

/-- `Flow.revert`: if a backup is stored, load it and clear the backup;
otherwise do nothing. -/
def Flow.revert (f : Flow) : Flow :=
  match f._backup with
  | some b => { f.load_state b with _backup := none }
  | none => f

/-- `Flow.match` (named `fmatch` here since `match` is reserved): apply the
pattern to the response if present, else to the request if present; a missing
pattern matches everything; a flow with neither artifact yields Python `None`,
i.e. false. -/
def Flow.fmatch (f : Flow) (p : Option FiltPred) : Bool :=
  match p with
  | some pred =>
    match f.response with
    | some resp => pred.onResp resp
    | none =>
      match f.request with
      | some r => pred.onReq r
      | none => false
  | none => true

/-- `Flow.intercept`: set the interception flag. -/
def Flow.intercept (f : Flow) : Flow :=
  { f with intercepting := true }

/-- Payload of an acknowledgement sent to the transport: `ack()`,
`ack(None)`, or `ack(response)`. -/
inductive AckPayload where
  | plain | withNull | withResponse
deriving DecidableEq

/-- Observable events of the core, used to state the acknowledgement
claims: acknowledgements of the three artifact kinds (identified by the
originating request's identity) and the sticky-cookie response hook
running. -/
inductive Event where
  | ackReq (rid : Nat) (p : AckPayload)
  | ackResp (rid : Option Nat) (p : AckPayload)
  | ackErr (rid : Option Nat)
  | stickyCookieResponseHook
deriving DecidableEq

/-- `Flow.accept_intercept`: if a request is present, acknowledge it when it
is unacknowledged, else acknowledge the response when present and
unacknowledged, and clear the interception flag (all inside the
`if self.request:` guard, as in the source). -/
def Flow.accept_intercept (f : Flow) : Flow × List Event :=
  match f.request with
  | none => (f, [])
  | some r =>
    if !r.acked then
      ({ f with request := some { r with acked := true }, intercepting := false },
       [Event.ackReq r.rid AckPayload.plain])
    else
      match f.response with
      | some resp =>
        if !resp.acked then
          ({ f with response := some { resp with acked := true }, intercepting := false },
           [Event.ackResp (resp.request.map (·.rid)) AckPayload.plain])
        else
          ({ f with intercepting := false }, [])
      | none => ({ f with intercepting := false }, [])

/-- `RunException`: message, exit status (absent for the spawn-failure case)
and captured standard-error bytes (absent likewise). -/
structure RunException where
  msg : String
  returncode : Option Int
  errout : Option String
deriving DecidableEq

/-- Outcome of the external subprocess spawned by `run_script`: either the
spawn itself failed (`OSError`) or the child ran, producing standard output,
standard error and an exit status. -/
inductive ScriptOutcome where
  | oserror (msg : String)
  | ran (so : String) (se : String) (returncode : Int)

/-- `Flow.script_deserialize`: parse JSON (the external `json.loads`,
modelled by the parameter `jp`; an exception is modelled by `none`) and
build a flow via `from_state`. -/
def Flow.script_deserialize (jp : String → Option FlowState) (s : String) : Option Flow :=
  (jp s).map Flow.from_state

/-- `Flow.run_script`: take a backup, serialize, spawn the script (the
subprocess interaction is external and passed in as `oc`); fail with a
`RunException` if the spawn fails, the exit status is nonzero, or the output
does not deserialize; otherwise load the deserialized flow's state and return
the captured standard-error bytes.  The returned flow is the (mutated) self:
on every failure path the backup taken at entry is still in place. -/
def Flow.run_script (f : Flow) (jp : String → Option FlowState) (oc : ScriptOutcome) :
    Flow × Except RunException String :=
  let f1 := f.backup
  match oc with
  | .oserror m => (f1, .error ⟨m, none, none⟩)
  | .ran so se rc =>
    if rc = 0 then
      match Flow.script_deserialize jp so with
      | none => (f1, .error ⟨"Invalid response from script.", some rc, some se⟩)
      | some g => (f1.load_state (g.get_state false), .ok se)
    else
      (f1, .error ⟨"Script returned error code " ++ toString rc, some rc, some se⟩)

/-- Association-list lookup, modelling a Python dictionary `get`. -/
def assocGet {K V : Type} [DecidableEq K] (m : List (K × V)) (k : K) : Option V :=
  match m.find? (fun p => decide (p.1 = k)) with
  | some p => some p.2
  | none => none

/-- Association-list update, modelling dictionary assignment `m[k] = v`
(overwrite in place when the key exists, append otherwise). -/
def assocSet {K V : Type} [DecidableEq K] (m : List (K × V)) (k : K) (v : V) :
    List (K × V) :=
  if (m.find? (fun p => decide (p.1 = k))).isSome then
    m.map (fun p => if p.1 = k then (k, v) else p)
  else
    m ++ [(k, v)]

/-- Association-list deletion, modelling `del m[k]`. -/
def assocErase {K V : Type} [DecidableEq K] (m : List (K × V)) (k : K) :
    List (K × V) :=
  m.filter (fun p => decide (p.1 ≠ k))

/-- Key presence, modelling `k in m`. -/
def assocHas {K V : Type} [DecidableEq K] (m : List (K × V)) (k : K) : Bool :=
  (m.find? (fun p => decide (p.1 = k))).isSome

/-- Modelled from the spec: the external `proxy.Request.anticache` strips the
conditional-request headers. -/
def Request.anticache (r : Request) : Request :=
  { r with d := { r.d with
      headers := headerDel (headerDel r.d.headers "if-modified-since") "if-none-match" } }

/-- Modelled from the spec: the external `proxy.Request.anticomp` strips the
content-encoding offers. -/
def Request.anticomp (r : Request) : Request :=
  { r with d := { r.d with headers := headerSet r.d.headers "accept-encoding" ["identity"] } }

/-- Modelled from the spec: the external `set_replay` marks a request as a
replay. -/
def Request.set_replay (r : Request) : Request :=
  { r with replay := true }

/-- Modelled from the spec: the external `set_replay` marks a response as a
replay. -/
def Response.set_replay (s : Response) : Response :=
  { s with replay := true }

/-- Modelled from the spec: the external `proxy.Response.get_state` yields
the serializable data of the response. -/
def Response.get_state (s : Response) : ResponseData :=
  s.d

/-- Modelled from the spec: the external `proxy.Response.from_state` builds a
fresh response object (unset acknowledgement marker, no replay flag) whose
back-reference is the request passed alongside the data. -/
def Response.from_state (req : Option Request) (sd : ResponseData) : Response :=
  { d := sd, request := req, acked := false, replay := false }

/-- Fingerprint key of `ServerPlaybackState._hash`: the tuple
`[host, port, scheme, method, path, content]` plus, when a header allowlist
is configured, the ordered `(name, values)` pairs for the listed headers.
The SHA-256 digest over the key's `repr` is modelled by the key itself (the
digest is stable and collision-free for verification purposes). -/
def requestKey (headers : List String) (r : Request) :
    List String × List (String × List String) :=
  ([r.d.host, toString r.d.port, r.d.scheme, r.d.method, r.d.path, r.d.content],
   if headers.isEmpty then [] else headers.map (fun i => (i, headerGet r.d.headers i)))

/-- The server-playback engine: header allowlist, exit flag, and the
fingerprint-to-FIFO-bucket map. -/
structure ServerPlaybackState where
  headers : List String
  exit : Bool
  fmap : List ((List String × List (String × List String)) × List Flow)

/-- Append a flow at the tail of its fingerprint bucket
(`self.fmap.setdefault(self._hash(i), []).append(i)`). -/
def bucketAppend (m : List ((List String × List (String × List String)) × List Flow))
    (k : List String × List (String × List String)) (f : Flow) :
    List ((List String × List (String × List String)) × List Flow) :=
  match assocGet m k with
  | some l => assocSet m k (l ++ [f])
  | none => m ++ [(k, [f])]

/-- One step of the `ServerPlaybackState` constructor loop: flows without a
response are skipped silently; hashing a flow without a request would raise
inside `_hash` (modelled by `none`). -/
def ServerPlaybackState.addFlow (sp : ServerPlaybackState) (f : Flow) :
    Option ServerPlaybackState :=
  if f.response.isSome then
    match f.request with
    | some r => some { sp with fmap := bucketAppend sp.fmap (requestKey sp.headers r) f }
    | none => none
  else
    some sp

/-- The `ServerPlaybackState` constructor: fold the input flows into the
fingerprint map. -/
def ServerPlaybackState.make (headers : List String) (flows : List Flow) (e : Bool) :
    Option ServerPlaybackState :=
  flows.foldlM ServerPlaybackState.addFlow { headers := headers, exit := e, fmap := [] }

/-- `ServerPlaybackState.count`: the sum of the bucket lengths. -/
def ServerPlaybackState.count (sp : ServerPlaybackState) : Nat :=
  (sp.fmap.map (fun p => p.2.length)).sum

/-- `ServerPlaybackState.next_flow`: pop the head of the bucket of the
probe's fingerprint; `none` result when the bucket is missing or empty
(`if not l`).  The probe is the live flow (the caller passes the flow, whose
request `_hash` reads; a request-less probe would raise, modelled by the
outer `none`). -/
def ServerPlaybackState.next_flow (sp : ServerPlaybackState) (f : Flow) :
    Option (Option Flow × ServerPlaybackState) :=
  match f.request with
  | none => none
  | some r =>
    match assocGet sp.fmap (requestKey sp.headers r) with
    | none => some (none, sp)
    | some [] => some (none, sp)
    | some (x :: xs) =>
      some (some x, { sp with fmap := assocSet sp.fmap (requestKey sp.headers r) xs })

/-- Python exceptions that the modelled code can raise. -/
inductive PyError where
  | attributeError | indexError
deriving DecidableEq

/-- A parsed cookie attribute block, modelling the first morsel returned by
the external `Cookie.SimpleCookie`: the `domain` and `path` attributes (the
empty string when unset, which is falsy in Python) and the serialized form
`m.output(header="").strip()`. -/
structure Morsel where
  domain : String
  path : String
  out : String
deriving DecidableEq

/-- The sticky-cookie policy: the trigger filter, the jar keyed by
`(domain, port, path)`, and the two external collaborators — the cookie
parser (returning the first attribute block, `none` when no morsel parses,
where Python raises `IndexError` on `c.values()[0]`) and
`cookielib.domain_match`. -/
structure StickyCookieState where
  flt : Option FiltPred
  jar : List ((String × Nat × String) × Morsel)
  parseCookie : String → Option Morsel
  domain_match : String → String → Bool

/-- `StickyCookieState.ckey`: the `(domain, port, path)` tuple, defaulting
the domain to the request host and the path to "/" (`or` on falsy values). -/
def StickyCookieState.ckey (mo : Morsel) (req : Request) : String × Nat × String :=
  (if mo.domain = "" then req.d.host else mo.domain, req.d.port,
   if mo.path = "" then "/" else mo.path)

/-- Loop body of `StickyCookieState.handle_response` over the `set-cookie`
header values: parse each value, and store the morsel under its key when the
response host domain-matches the cookie's domain. -/
def StickyCookieState.storeAll (sc : StickyCookieState) (req : Request) :
    List String → Except PyError StickyCookieState
  | [] => .ok sc
  | i :: rest =>
    match sc.parseCookie i with
    | none => .error .indexError
    | some mo =>
      let k := StickyCookieState.ckey mo req
      let sc' := if sc.domain_match req.d.host k.1 then { sc with jar := assocSet sc.jar k mo } else sc
      sc'.storeAll req rest

/-- `StickyCookieState.handle_response`: iterate the response's `set-cookie`
headers; dereferencing the response or request of a sentinel or incomplete
flow raises `AttributeError`, as in Python. -/
def StickyCookieState.handle_response (sc : StickyCookieState) (f : Flow) :
    Except PyError StickyCookieState :=
  match f.response with
  | none => .error .attributeError
  | some resp =>
    match f.request with
    | none => .error .attributeError
    | some req => sc.storeAll req (headerGet resp.d.headers "set-cookie")

/-- Loop body of `StickyCookieState.handle_request` over one jar entry: when
the entry's domain matches the request host, its port equals the request
port and its path is a prefix of the request path, append the serialized
cookie to the request's `cookie` header and set the `stickycookie` marker. -/
def StickyCookieState.applyCookie (sc : StickyCookieState) (r : Request)
    (kv : (String × Nat × String) × Morsel) : Request :=
  if sc.domain_match kv.1.1 r.d.host && decide (r.d.port = kv.1.2.1)
      && r.d.path.startsWith kv.1.2.2 then
    { r with stickycookie := true,
             d := { r.d with
               headers := headerSet r.d.headers "cookie" (headerGet r.d.headers "cookie" ++ [kv.2.out]) } }
  else r

/-- `StickyCookieState.handle_request`: when the flow matches the trigger
filter, fold `applyCookie` over the jar entries.  (A request-less flow would
raise inside the jar loop in Python; unreachable from the master, modelled
as a no-op.) -/
def StickyCookieState.handle_request (sc : StickyCookieState) (f : Flow) : Flow :=
  if f.fmatch sc.flt then
    match f.request with
    | none => f
    | some req => { f with request := some (sc.jar.foldl sc.applyCookie req) }
  else f

/-- The sticky-auth policy: the trigger filter and the host-to-Authorization
memory (values are the header value lists as stored by `headers[k]`). -/
structure StickyAuthState where
  flt : Option FiltPred
  hosts : List (String × List String)

/-- `StickyAuthState.handle_request`: record the Authorization header when
present (overwriting); otherwise, when the flow matches the filter and a
prior value exists for the host, inject it.  (A request-less flow would raise
on the header access; unreachable from the master, modelled as a no-op.) -/
def StickyAuthState.handle_request (a : StickyAuthState) (f : Flow) :
    StickyAuthState × Flow :=
  match f.request with
  | none => (a, f)
  | some req =>
    if headerHas req.d.headers "authorization" then
      ({ a with hosts := assocSet a.hosts req.d.host (headerGet req.d.headers "authorization") }, f)
    else if f.fmatch a.flt then
      match assocGet a.hosts req.d.host with
      | some v =>
        let req2 : Request :=
          { req with d := { req.d with headers := headerSet req.d.headers "authorization" v } }
        (a, { f with request := some req2 })
      | none => (a, f)
    else (a, f)

/-- The client-playback engine: the queue of flows to inject, the exit flag
and the identity of the at-most-one in-flight injected flow. -/
structure ClientPlaybackState where
  flows : List Flow
  exit : Bool
  current : Option Nat

/-- `ClientPlaybackState.count`. -/
def ClientPlaybackState.count (c : ClientPlaybackState) : Nat :=
  c.flows.length

/-- `ClientPlaybackState.done`: queue empty and no current flow. -/
def ClientPlaybackState.done (c : ClientPlaybackState) : Bool :=
  c.flows.isEmpty && c.current.isNone

/-- `ClientPlaybackState.clear`: release the current slot when the finished
flow is the current one (`if flow is self.current`). -/
def ClientPlaybackState.clear (c : ClientPlaybackState) (f : Option Nat) :
    ClientPlaybackState :=
  if f = c.current then { c with current := none } else c

/-- The flow store (`class State`).  Python keeps flow object references in
the list, the map and the view; the model keeps the authoritative flow
values in `_flow_list` and keys the map and the view by flow identity
(`fid`).  The map key is the request's object identity (`None` for a
request-less flow loaded via `load_flows`).  `nextFid` models the allocation
of fresh object identities. -/
structure StateM where
  _flow_list : List Flow
  _flow_map : List (Option Nat × Nat)
  view : List Nat
  _limit : Option FiltPred
  intercept : Option FiltPred
  _limit_txt : Option String
  intercept_txt : Option String
  nextFid : Nat

/-- `State.__init__`: empty store, no filters. -/
def StateM.initial : StateM :=
  ⟨[], [], [], none, none, none, none, 0⟩

/-- Dereference a flow object held by the store. -/
def StateM.getFlow (st : StateM) (fid : Nat) : Option Flow :=
  st._flow_list.find? (fun f => decide (f.fid = fid))

/-- In-place mutation of a stored flow object. -/
def StateM.setFlow (st : StateM) (fid : Nat) (f : Flow) : StateM :=
  { st with _flow_list := st._flow_list.map (fun g => if g.fid = fid then f else g) }

/-- `State.flow_count`. -/
def StateM.flow_count (st : StateM) : Nat :=
  st._flow_map.length

/-- `State.active_flow_count`: flows with neither response nor error. -/
def StateM.active_flow_count (st : StateM) : Nat :=
  (st._flow_list.filter (fun f => f.response.isNone && f.error.isNone)).length

/-- `State.add_request`: wrap the request in a new flow, append it to the
list, key the map by the request's identity, and append to the view if the
flow matches the limit.  Returns the new flow's identity. -/
def StateM.add_request (st : StateM) (req : Request) : StateM × Nat :=
  let fid := st.nextFid
  let f : Flow := ⟨fid, some req, none, none, false, none⟩
  let st1 := { st with
    _flow_list := st._flow_list ++ [f],
    _flow_map := assocSet st._flow_map (some req.rid) fid,
    nextFid := fid + 1 }
  let st2 := if f.fmatch st._limit then { st1 with view := st1.view ++ [fid] } else st1
  (st2, fid)

/-- `State.add_response`: look the flow up by the response's originating
request; when absent return `none` (Python `False`) without touching the
state; otherwise attach the response and append the flow to the view if it
now matches the limit and is not in the view already. -/
def StateM.add_response (st : StateM) (resp : Response) : StateM × Option Nat :=
  match assocGet st._flow_map (resp.request.map (·.rid)) with
  | none => (st, none)
  | some fid =>
    match st.getFlow fid with
    | none => (st, none)
    | some f =>
      let f' := { f with response := some resp }
      let st1 := st.setFlow fid f'
      let st2 :=
        if f'.fmatch st._limit && decide (fid ∉ st1.view) then
          { st1 with view := st1.view ++ [fid] }
        else st1
      (st2, some fid)

/-- `State.add_error`: same lookup via the error's originating request;
`none` when the error carries no request or the flow is unknown. -/
def StateM.add_error (st : StateM) (e : Error) : StateM × Option Nat :=
  match e.request with
  | none => (st, none)
  | some er =>
    match assocGet st._flow_map (some er.rid) with
    | none => (st, none)
    | some fid =>
      match st.getFlow fid with
      | none => (st, none)
      | some f =>
        let f' := { f with error := some e }
        let st1 := st.setFlow fid f'
        let st2 :=
          if f'.fmatch st._limit && decide (fid ∉ st1.view) then
            { st1 with view := st1.view ++ [fid] }
          else st1
        (st2, some fid)

/-- `State.recalculate_view`: with a limit, the view is the list filtered by
it; without, a copy of the list. -/
def StateM.recalculate_view (st : StateM) : StateM :=
  match st._limit with
  | some _ => { st with view := (st._flow_list.filter (fun f => f.fmatch st._limit)).map (·.fid) }
  | none => { st with view := st._flow_list.map (·.fid) }

/-- `State.set_limit`: the external `filt.parse` is modelled by passing its
result directly — `some (txt, pred)` for a successfully parsed non-empty
text, `none` for an empty text.  (A parse failure returns an error string
without touching the state and is therefore not an operation of the model.)
The view is recomputed. -/
def StateM.set_limit (st : StateM) (arg : Option (String × FiltPred)) : StateM :=
  match arg with
  | some (txt, f) => ({ st with _limit := some f, _limit_txt := some txt }).recalculate_view
  | none => ({ st with _limit := none, _limit_txt := none }).recalculate_view

/-- `State.set_intercept`: same contract as `set_limit`, without the view
recomputation. -/
def StateM.set_intercept (st : StateM) (arg : Option (String × FiltPred)) : StateM :=
  match arg with
  | some (txt, f) => { st with intercept := some f, intercept_txt := some txt }
  | none => { st with intercept := none, intercept_txt := none }

/-- `State.load_flows`: extend the list with the given flows (each a fresh
object, so each receives a fresh identity), key the map by each flow's
request identity, and recompute the view. -/
def StateM.load_flows (st : StateM) (fs : List Flow) : StateM :=
  let st1 := fs.foldl (fun acc f =>
    let fid := acc.nextFid
    { acc with
      _flow_list := acc._flow_list ++ [{ f with fid := fid }],
      _flow_map := assocSet acc._flow_map (f.request.map (·.rid)) fid,
      nextFid := fid + 1 }) st
  st1.recalculate_view

/-- `State.delete_flow`: drop the map entry for the flow's request key when
present, remove the flow from the list, and remove it from the view when it
matches the limit.  `none` models the `ValueError` raised by `list.remove`
when the object is absent from the list, or by `view.remove` when the flow
matches the limit but is not in the view (on the first raising path the
preceding map deletion is not modelled, as the store is discarded). -/
def StateM.delete_flow (st : StateM) (fid : Nat) : Option StateM :=
  match st.getFlow fid with
  | none => none
  | some f =>
    let k := f.request.map (·.rid)
    let m1 := if assocHas st._flow_map k then assocErase st._flow_map k else st._flow_map
    let l1 := st._flow_list.eraseP (fun g => decide (g.fid = fid))
    if f.fmatch st._limit then
      if fid ∈ st.view then
        some { st with _flow_map := m1, _flow_list := l1, view := st.view.erase fid }
      else none
    else
      some { st with _flow_map := m1, _flow_list := l1 }

/-- `State.clear`: delete every flow, iterating over a copy of the list. -/
def StateM.clear (st : StateM) : Option StateM :=
  (st._flow_list.map (·.fid)).foldlM (fun acc fid => acc.delete_flow fid) st

/-- One flow-store mutation, as enumerated by the store-invariant claim. -/
inductive StateOp where
  | add_request (r : Request)
  | add_response (resp : Response)
  | add_error (e : Error)
  | delete_flow (fid : Nat)
  | clear
  | set_limit (arg : Option (String × FiltPred))
  | load_flows (fs : List Flow)

/-- Apply one store operation; `none` models a raised `ValueError`. -/
def StateM.step (st : StateM) (op : StateOp) : Option StateM :=
  match op with
  | .add_request r => some (st.add_request r).1
  | .add_response resp => some (st.add_response resp).1
  | .add_error e => some (st.add_error e).1
  | .delete_flow fid => st.delete_flow fid
  | .clear => st.clear
  | .set_limit arg => some (st.set_limit arg)
  | .load_flows fs => some (st.load_flows fs)

/-- Apply a sequence of store operations. -/
def StateM.run (st : StateM) : List StateOp → Option StateM
  | [] => some st
  | op :: ops =>
    match st.step op with
    | some st' => st'.run ops
    | none => none

/-- The spec's store invariant: the view equals the list filtered by the
limit, in list order. -/
def StateM.viewInv (st : StateM) : Bool :=
  decide (st.view = (st._flow_list.filter (fun f => f.fmatch st._limit)).map (·.fid))

/-- Whether an operation leaves the limit's verdict on its target flow
unchanged: attaching a response can flip the verdict (the limit is evaluated
on the response once one is present); every other operation is always
stable; attaching an error never changes the verdict, since `Flow.match`
never inspects the error. -/
def StateOp.stableAt (st : StateM) : StateOp → Bool
  | .add_response resp =>
    match assocGet st._flow_map (resp.request.map (·.rid)) with
    | none => true
    | some fid =>
      match st.getFlow fid with
      | none => true
      | some f => decide (Flow.fmatch { f with response := some resp } st._limit = f.fmatch st._limit)
  | _ => true

/-- Whether every operation of a sequence is stable at the state where it
runs. -/
def StateM.allStable (st : StateM) : List StateOp → Bool
  | [] => true
  | op :: ops =>
    StateOp.stableAt st op &&
    (match st.step op with
     | some st' => st'.allStable ops
     | none => true)

/-- The flow-master dispatcher (`class FlowMaster`): the store, the two
playback engines, the sticky policies and the boolean modes.  `refreshFn`
models the external `proxy.Response.refresh` (date-header adjustment
relative to the current time). -/
structure FlowMaster where
  state : StateM
  server_playback : Option ServerPlaybackState
  client_playback : Option ClientPlaybackState
  kill_nonreplay : Bool
  stickycookie_state : Option StickyCookieState
  stickycookie_txt : Option String
  stickyauth_state : Option StickyAuthState
  stickyauth_txt : Option String
  anticache : Bool
  anticomp : Bool
  autodecode : Bool
  refresh_server_playback : Bool
  refreshFn : ResponseData → ResponseData

/-- `FlowMaster.handle_error`: add the error to the store, notify client
playback, acknowledge the error, and return the matching flow.  The error
object attached to a stored flow is the same object (Python aliasing), so
its `acked` marker is updated there; for an error whose flow was not found
the acknowledgement is observable only as an event. -/
def FlowMaster.handle_error (m : FlowMaster) (e : Error) :
    FlowMaster × Option Nat × List Event :=
  let pr := m.state.add_error e
  let m1 := { m with state := pr.1 }
  let m2 :=
    match m1.client_playback with
    | some cp => { m1 with client_playback := some (cp.clear pr.2) }
    | none => m1
  let m3 :=
    match pr.2 with
    | some fid =>
      match m2.state.getFlow fid with
      | some g =>
        let g' : Flow := { g with error := g.error.map (fun er => { er with acked := true }) }
        { m2 with state := m2.state.setFlow fid g' }
      | none => m2
    | none => m2
  (m3, pr.2, [Event.ackErr (e.request.map (·.rid))])

/-- The `elif self.response and not self.response.acked` arm of `Flow.kill`:
acknowledge the response with a null when it is present and
unacknowledged. -/
def Flow.killAckResp (fl : Flow) : Flow × List Event :=
  match fl.response with
  | some resp =>
    if !resp.acked then
      ({ fl with response := some { resp with acked := true } },
       [Event.ackResp (resp.request.map (·.rid)) AckPayload.withNull])
    else (fl, [])
  | none => (fl, [])

/-- The acknowledgement selection of `Flow.kill`: the request when present
and unacknowledged, else the response when present and unacknowledged. -/
def Flow.killAcks (f1 : Flow) : Flow × List Event :=
  match f1.request with
  | some r =>
    if !r.acked then
      ({ f1 with request := some { r with acked := true } },
       [Event.ackReq r.rid AckPayload.withNull])
    else f1.killAckResp
  | none => f1.killAckResp

/-- `Flow.kill(master)` for a state-resident flow, addressed by `fid`:
attach a "Connection killed" error, acknowledge the pending artifact with a
null response (`killAcks`), report the error through `handle_error`, and
clear the interception flag.  Python passes the flow object itself; every
in-repo caller holds a store-resident flow. -/
def FlowMaster.killFlow (m : FlowMaster) (fid : Nat) : FlowMaster × List Event :=
  match m.state.getFlow fid with
  | none => (m, [])
  | some f =>
    match Flow.killAcks { f with error := some { request := f.request, msg := "Connection killed", acked := false } } with
    | (f2, ev1) =>
      match FlowMaster.handle_error { m with state := m.state.setFlow fid f2 }
          { request := f.request, msg := "Connection killed", acked := false } with
      | (m2, _, ev2) =>
        match m2.state.getFlow fid with
        | some g => ({ m2 with state := m2.state.setFlow fid { g with intercepting := false } }, ev1 ++ ev2)
        | none => (m2, ev1 ++ ev2)

/-- `FlowMaster.do_server_playback`: ask the engine for the canned flow of
the live flow's fingerprint; on a hit, clone the canned response with a
fresh back-reference to the live request, mark it as a replay, optionally
refresh its date headers, attach it, and acknowledge the live request with
the response (no `acked` check precedes this `ack`).  Returns whether
playback took place. -/
def FlowMaster.do_server_playback (m : FlowMaster) (fid : Nat) :
    FlowMaster × Bool × List Event :=
  match m.server_playback with
  | none => (m, false, [])
  | some sp =>
    match m.state.getFlow fid with
    | none => (m, false, [])
    | some flow =>
      match flow.request with
      | none => (m, false, [])
      | some r =>
        match sp.next_flow flow with
        | none => (m, false, [])
        | some (none, sp') => ({ m with server_playback := some sp' }, false, [])
        | some (some rflow, sp') =>
          match rflow.response with
          | none => ({ m with server_playback := some sp' }, false, [])
          | some rresp =>
            let response0 := Response.from_state flow.request rresp.get_state
            let response1 := response0.set_replay
            let response2 :=
              if m.refresh_server_playback then { response1 with d := m.refreshFn response1.d }
              else response1
            let r' : Request := { r with acked := true }
            let flow1 : Flow := { flow with response := some response2, request := some r' }
            let m1 := { m with server_playback := some sp', state := m.state.setFlow fid flow1 }
            (m1, true, [Event.ackReq r.rid AckPayload.withResponse])

/-- The hook phase of `process_new_request` (source lines 583-591): run the
sticky-cookie request hook, the sticky-auth hook, anticache and anticomp,
each when configured, in that order.  Returns the updated sticky-auth state
and the transformed flow. -/
def FlowMaster.requestHooks (m : FlowMaster) (f0 : Flow) : Option StickyAuthState × Flow :=
  let f1 :=
    match m.stickycookie_state with
    | some sc => sc.handle_request f0
    | none => f0
  let pa :=
    match m.stickyauth_state with
    | some a => let q := a.handle_request f1; (some q.1, q.2)
    | none => (m.stickyauth_state, f1)
  let f2 := pa.2
  let f3 := if m.anticache then { f2 with request := f2.request.map Request.anticache } else f2
  let f4 := if m.anticomp then { f3 with request := f3.request.map Request.anticomp } else f3
  (pa.1, f4)

/-- `FlowMaster.process_new_request`: run the request hooks, then server
playback; on a playback miss, kill the flow when `kill_nonreplay` is set,
else acknowledge the request (without checking its `acked` marker).  When no
server-playback engine is configured, nothing further happens — in
particular no acknowledgement is issued. -/
def FlowMaster.process_new_request (m : FlowMaster) (fid : Nat) :
    FlowMaster × List Event :=
  match m.state.getFlow fid with
  | none => (m, [])
  | some f0 =>
    let m1 : FlowMaster :=
      { m with state := m.state.setFlow fid (m.requestHooks f0).2, stickyauth_state := (m.requestHooks f0).1 }
    match m.server_playback with
    | none => (m1, [])
    | some _ =>
      match m1.do_server_playback fid with
      | (m2, pb, ev) =>
        if pb then (m2, ev)
        else if m2.kill_nonreplay then
          ((m2.killFlow fid).1, ev ++ (m2.killFlow fid).2)
        else
          match m2.state.getFlow fid with
          | none => (m2, ev)
          | some g =>
            match g.request with
            | none => (m2, ev)
            | some r =>
              ({ m2 with state := m2.state.setFlow fid { g with request := some { r with acked := true } } },
               ev ++ [Event.ackReq r.rid AckPayload.plain])

/-- `FlowMaster.handle_request`: add the request to the store, process the
new flow, return it. -/
def FlowMaster.handle_request (m : FlowMaster) (r : Request) :
    FlowMaster × Nat × List Event :=
  let pr := m.state.add_request r
  let m1 := { m with state := pr.1 }
  let pn := m1.process_new_request pr.2
  (pn.1, pr.2, pn.2)

/-- `FlowMaster.process_new_response`: run the sticky-cookie response hook
when configured.  The handler passes the result of `add_response` here
unconditionally, so with sticky cookies configured the `False` sentinel of
an unknown flow reaches `StickyCookieState.handle_response`, which
dereferences `False.response` — an `AttributeError`.  The emitted event
records that the hook ran. -/
def FlowMaster.process_new_response (m : FlowMaster) (fOpt : Option Nat) :
    Except PyError (FlowMaster × List Event) :=
  match m.stickycookie_state with
  | none => .ok (m, [])
  | some sc =>
    match fOpt with
    | none => .error .attributeError
    | some fid =>
      match m.state.getFlow fid with
      | none => .ok (m, [])
      | some f =>
        match sc.handle_response f with
        | .error e => .error e
        | .ok sc' => .ok ({ m with stickycookie_state := some sc' }, [Event.stickyCookieResponseHook])

/-- `FlowMaster.handle_response`: add the response to the store, notify
client playback, acknowledge the response directly when its flow is unknown,
then run `process_new_response` on the lookup result (known or not). -/
def FlowMaster.handle_response (m : FlowMaster) (r : Response) :
    Except PyError (FlowMaster × Option Nat × List Event) :=
  let pr := m.state.add_response r
  let m1 := { m with state := pr.1 }
  let m2 :=
    match m1.client_playback with
    | some cp => { m1 with client_playback := some (cp.clear pr.2) }
    | none => m1
  let ev0 : List Event :=
    match pr.2 with
    | none => [Event.ackResp (r.request.map (·.rid)) AckPayload.plain]
    | some _ => []
  match m2.process_new_response pr.2 with
  | .error e => .error e
  | .ok (m3, ev1) => .ok (m3, pr.2, ev0 ++ ev1)

/-- Errors observable from `FlowReader.stream`: the module's own
`FlowReadError` and the uncaught `ValueError` of `json.loads`. -/
inductive StreamErr where
  | flowReadError (msg : String)
  | valueError
deriving DecidableEq

/-- Longest leading run of decimal digits. -/
def spanDigits : List Char → List Char × List Char
  | [] => ([], [])
  | c :: cs =>
    if c.isDigit then (c :: (spanDigits cs).1, (spanDigits cs).2)
    else ([], c :: cs)

/-- Decimal value of a digit run. -/
def digitsToNat (ds : List Char) : Nat :=
  ds.foldl (fun n c => n * 10 + (c.toNat - 48)) 0

/-- Split off exactly `n` characters. -/
def takeExact : Nat → List Char → Option (List Char × List Char)
  | 0, cs => some ([], cs)
  | _ + 1, [] => none
  | n + 1, c :: cs => (takeExact n cs).map (fun p => (c :: p.1, p.2))

/-- Modelled from the spec: one frame of the length-prefixed log format,
`<decimal-length>:<payload>,` (the external `netstring` codec, whose file is
part of the repository but not under `src/`).  `none` models a framing
violation, `netstring.DecoderError`. -/
def decodeOne (cs : List Char) : Option (List Char × List Char) :=
  match spanDigits cs with
  | ([], _) => none
  | (d :: ds, rest) =>
    match rest with
    | ':' :: rest2 =>
      match takeExact (digitsToNat (d :: ds)) rest2 with
      | some (payload, rest3) =>
        match rest3 with
        | ',' :: rest4 => some (payload, rest4)
        | _ => none
      | none => none
    | _ => none

/-- All frames of a stream (fuelled by the input length; each frame consumes
at least one character). -/
def decodeAllFuel : Nat → List Char → Option (List (List Char))
  | _, [] => some []
  | 0, _ :: _ => none
  | n + 1, c :: cs =>
    match decodeOne (c :: cs) with
    | none => none
    | some (payload, rest) => (decodeAllFuel n rest).map (payload :: ·)

/-- Modelled from the spec: decode a whole length-prefixed stream. -/
def netstringDecode (cs : List Char) : Option (List (List Char)) :=
  decodeAllFuel cs.length cs

/-- Recursion of `FlowReader.stream` over the frames (fuelled by the input
length): decode a frame (a violation raises
`FlowReadError("Invalid data format.")`), parse its payload as JSON (`jp`,
the external `json.loads`; `none` models the `ValueError` it raises, which
the `except netstring.DecoderError` clause does not catch), and yield the
deserialized flow. -/
def streamFuel (jp : String → Option FlowState) :
    Nat → List Char → Except StreamErr (List Flow)
  | _, [] => .ok []
  | 0, _ :: _ => .error (.flowReadError "Invalid data format.")
  | n + 1, c :: cs =>
    match decodeOne (c :: cs) with
    | none => .error (.flowReadError "Invalid data format.")
    | some (payload, rest) =>
      match jp (String.mk payload) with
      | none => .error .valueError
      | some st =>
        match streamFuel jp n rest with
        | .ok fs => .ok (Flow.from_state st :: fs)
        | .error e => .error e

/-- `FlowReader.stream`, over the character stream of the log file. -/
def FlowReader.stream (jp : String → Option FlowState) (cs : List Char) :
    Except StreamErr (List Flow) :=
  streamFuel jp cs.length cs

/-- `n` successive `next_flow` calls with the same probe, used to state the
FIFO playback claim.  (The crash case of a request-less probe stops the
iteration; it is unreachable under the claims' hypotheses.) -/
def ServerPlaybackState.nextN (sp : ServerPlaybackState) (probe : Flow) :
    Nat → List (Option Flow) × ServerPlaybackState
  | 0 => ([], sp)
  | n + 1 =>
    match sp.next_flow probe with
    | none => ([], sp)
    | some (res, sp') => (res :: (sp'.nextN probe n).1, (sp'.nextN probe n).2)

/-- The hook pipeline of `process_new_request` exactly as the spec words it:
sticky cookie, then sticky auth, then anticache, then anticomp (each when
configured).  Returns the updated sticky-auth state and the transformed
flow; compared against `FlowMaster.process_new_request` by the claims. -/
def specHookPipeline (m : FlowMaster) (f0 : Flow) : Option StickyAuthState × Flow :=
  let f1 :=
    match m.stickycookie_state with
    | some sc => sc.handle_request f0
    | none => f0
  let pa :=
    match m.stickyauth_state with
    | some a => let q := a.handle_request f1; (some q.1, q.2)
    | none => (m.stickyauth_state, f1)
  let f2 := pa.2
  let f3 := if m.anticache then { f2 with request := f2.request.map Request.anticache } else f2
  let f4 := if m.anticomp then { f3 with request := f3.request.map Request.anticomp } else f3
  (pa.1, f4)

/-- Propositional form of the store's view invariant. -/
def StateM.viewEq (st : StateM) : Prop :=
  st.view = (st._flow_list.filter (fun f => f.fmatch st._limit)).map (·.fid)

/-- Well-formedness of the modelled object identities: the stored flows have
pairwise distinct identities, all below the allocation counter. -/
def StateM.wfFids (st : StateM) : Prop :=
  (st._flow_list.map (·.fid)).Nodup ∧ ∀ f ∈ st._flow_list, f.fid < st.nextFid

/-- Concrete request fixture (identity 5). -/
def reqA : Request :=
  ⟨⟨"example.com", 80, "http", "GET", "/a", [], ""⟩, 5, false, false, false⟩

/-- Concrete response fixture, originating at `reqA`. -/
def respA : Response :=
  ⟨⟨200, [], ""⟩, some reqA, false, false⟩

/-- A master with an empty store and every policy and mode switched off. -/
def masterBare : FlowMaster :=
  ⟨StateM.initial, none, none, false, none, none, none, none, false, false, false, false, id⟩

/-- A complete concrete flow fixture (identity 1): `reqA` with its
response. -/
def flowW : Flow :=
  ⟨1, some reqA, some respA, none, false, none⟩

/-- `g` differs from `f` at most in the request's data and policy flags: the
flow and request identities, the acknowledgement markers, the response, the
error and the interception flag are unchanged.  This is what every hook of
`process_new_request` guarantees. -/
def ReqPreserved (g f : Flow) : Prop :=
  g.fid = f.fid ∧ g.request.map (·.rid) = f.request.map (·.rid) ∧
  g.request.map (·.acked) = f.request.map (·.acked) ∧
  g.response = f.response ∧ g.error = f.error ∧ g.intercepting = f.intercepting

/-- A stored flow fixture: `reqA` pending, no response yet (identity 1). -/
def flowReq : Flow :=
  ⟨1, some reqA, none, none, false, none⟩

/-- A store holding `flowReq`, keyed by `reqA`'s identity. -/
def stateW : StateM :=
  ⟨[flowReq], [(some 5, 1)], [1], none, none, none, none, 2⟩

/-- The bare master whose store holds the pending `flowReq`. -/
def masterW : FlowMaster :=
  { masterBare with state := stateW }

/-- A sticky-cookie policy with no trigger filter, an empty jar and inert
external collaborators. -/
def scBare : StickyCookieState :=
  ⟨none, [], fun _ => none, fun _ _ => false⟩

/-- The bare master with sticky cookies configured. -/
def masterSC : FlowMaster :=
  { masterBare with stickycookie_state := some scBare }

/-- Sticky cookies configured and `flowReq` stored: the well-behaved case of
`handle_response`. -/
def masterSCW : FlowMaster :=
  { masterBare with stickycookie_state := some scBare, state := stateW }

/-- `reqA` with its acknowledgement already issued. -/
def reqAcked : Request :=
  { reqA with acked := true }

/-- A store holding the already-acknowledged request (identity 1). -/
def stateAcked : StateM :=
  ⟨[⟨1, some reqAcked, none, none, false, none⟩], [(some 5, 1)], [1], none, none, none, none, 2⟩

/-- A playback engine holding one canned response-bearing flow under `reqA`'s
fingerprint. -/
def spHit : ServerPlaybackState :=
  ⟨[], false, [(requestKey [] reqA, [flowW])]⟩

/-- A master poised for a playback hit on an already-acknowledged request. -/
def masterHit : FlowMaster :=
  { masterBare with server_playback := some spHit, state := stateAcked }

/-- A limit predicate that matches every request and no response. -/
def predReqOnly : FiltPred :=
  ⟨fun _ => true, fun _ => false⟩

theorem Flow.load_get_state (g : Flow) (s : FlowState) :
    (g.load_state s).get_state true
      = FlowState.mk s.request s.response s.error IVERSION none := by
  obtain ⟨fid, req, resp, err, i, b⟩ := g
  obtain ⟨sr, ss, se, sv, sb⟩ := s
  cases sr <;> cases ss <;> cases se <;> cases req <;> cases resp <;> cases err <;>
    simp [Flow.load_state, Flow.get_state, FlowState.request, FlowState.response,
      FlowState.error]

theorem Flow.load_state_self (f : Flow) :
    f.load_state (f.get_state true) = { f with _backup := none } := by
  obtain ⟨fid, req, resp, err, i, b⟩ := f
  cases req <;> cases resp <;> cases err <;> rfl

/-- Claim C7, counterexample: `backup()` on a flow that already holds a
snapshot does not leave the stored snapshot unchanged — the fresh snapshot
of the current flow replaces it. -/
theorem C7_counterexample :
    (Flow.backup ⟨0, none, none, none, false,
        some (FlowState.mk (some ⟨"h", 80, "http", "GET", "/", [], ""⟩) none none IVERSION none)⟩)._backup
      ≠ some (FlowState.mk (some ⟨"h", 80, "http", "GET", "/", [], ""⟩) none none IVERSION none) := by
  simp [Flow.backup, Flow.get_state, FlowState.mk.injEq]

/-- Claim C7 (amended): `backup()` always takes a snapshot of the current
flow without the backup field and stores it, overwriting any prior snapshot;
the artifact fields and the interception flag are untouched. -/
theorem C7_amended (f : Flow) :
    (f.backup)._backup = some (f.get_state true) ∧
    (f.backup).request = f.request ∧ (f.backup).response = f.response ∧
    (f.backup).error = f.error ∧ (f.backup).intercepting = f.intercepting := by
  simp [Flow.backup]

/-- Claim C8: `modified()` is true iff a backup snapshot is stored;
`revert()` with a backup loads the stored snapshot and clears the backup —
in particular, however the artifact fields were replaced after `backup()`,
the reverted flow's artifact snapshot equals the pre-backup one; `revert()`
without a backup changes nothing. -/
theorem C8_modified_revert (f : Flow) (r' : Option Request) (s' : Option Response)
    (e' : Option Error) (i' : Bool) :
    (f.modified = true ↔ f._backup.isSome = true) ∧
    (f._backup = none → f.revert = f) ∧
    (∀ b, f._backup = some b → f.revert = { f.load_state b with _backup := none }) ∧
    (({ f.backup with request := r', response := s', error := e', intercepting := i' } : Flow).revert.get_state true
        = f.get_state true) ∧
    (({ f.backup with request := r', response := s', error := e', intercepting := i' } : Flow).revert._backup = none) := by
  refine ⟨Iff.rfl, ?_, ?_, ?_, rfl⟩
  · intro h; simp [Flow.revert, h]
  · intro b hb; simp [Flow.revert, hb]
  · show (({ f.backup with request := r', response := s', error := e', intercepting := i' } : Flow).load_state
        (f.get_state true)).get_state true = f.get_state true
    rw [Flow.load_get_state]
    rfl

/-- Claim C8, witness at a concrete backup-free flow. -/
theorem C8_witness :
    Flow.revert ⟨0, none, none, none, false, none⟩ = ⟨0, none, none, none, false, none⟩ :=
  (C8_modified_revert ⟨0, none, none, none, false, none⟩ none none none false).2.1 rfl

/-- Claim C9: `run_script` takes a backup first; a spawn failure, a nonzero
exit status, or an unparseable output fails with a `RunException` carrying
the exit status and the captured standard-error bytes, with the flow left as
the backed-up self — and a subsequent `revert` restores the flow exactly;
a successful run restores the flow from the output snapshot and returns the
standard-error bytes. -/
theorem C9_run_script (f : Flow) (jp : String → Option FlowState) (so se : String) (rc : Int) :
    (rc ≠ 0 →
      f.run_script jp (.ran so se rc)
        = (f.backup, .error ⟨"Script returned error code " ++ toString rc, some rc, some se⟩)) ∧
    (jp so = none →
      f.run_script jp (.ran so se 0)
        = (f.backup, .error ⟨"Invalid response from script.", some 0, some se⟩)) ∧
    (∀ st, jp so = some st →
      f.run_script jp (.ran so se 0)
        = ((f.backup).load_state ((Flow.from_state st).get_state false), .ok se)) ∧
    (∀ msg, f.run_script jp (.oserror msg) = (f.backup, .error ⟨msg, none, none⟩)) ∧
    ((f.backup).revert = { f with _backup := none }) := by
  refine ⟨?_, ?_, ?_, ?_, ?_⟩
  · intro h; simp [Flow.run_script, h]
  · intro h; simp [Flow.run_script, Flow.script_deserialize, h]
  · intro st h; simp [Flow.run_script, Flow.script_deserialize, h]
  · intro msg; rfl
  · have h1 : (Flow.backup f)._backup = some (f.get_state true) := rfl
    have h2 : (Flow.backup f).load_state (f.get_state true)
        = f.load_state (f.get_state true) := rfl
    simp [Flow.revert, h1, h2, Flow.load_state_self]

/-- Claim C9, witness: a script exiting 2 with "boom" on standard error. -/
theorem C9_witness :
    Flow.run_script ⟨0, none, none, none, false, none⟩ (fun _ => none) (.ran "out" "boom" 2)
      = (Flow.backup ⟨0, none, none, none, false, none⟩,
         .error ⟨"Script returned error code " ++ toString (2 : Int), some 2, some "boom"⟩) :=
  (C9_run_script ⟨0, none, none, none, false, none⟩ (fun _ => none) "out" "boom" 2).1 (by decide)

theorem spanDigits_length (cs : List Char) :
    (spanDigits cs).1.length + (spanDigits cs).2.length = cs.length := by
  induction cs with
  | nil => rfl
  | cons c cs ih =>
    cases h : c.isDigit
    · simp [spanDigits, h]
    · simp [spanDigits, h]
      omega

theorem takeExact_length : ∀ (n : Nat) (cs p r : List Char),
    takeExact n cs = some (p, r) → p.length = n ∧ cs.length = n + r.length := by
  intro n
  induction n with
  | zero =>
    intro cs p r h
    simp [takeExact] at h
    obtain ⟨rfl, rfl⟩ := h
    simp
  | succ n ih =>
    intro cs p r h
    cases cs with
    | nil => simp [takeExact] at h
    | cons c cs =>
      rw [takeExact] at h
      cases ht : takeExact n cs with
      | none => rw [ht] at h; simp at h
      | some q =>
        obtain ⟨q1, q2⟩ := q
        rw [ht] at h
        simp only [Option.map_some'] at h
        injection h with h2
        injection h2 with he1 he2
        subst he1
        subst he2
        obtain ⟨ih1, ih2⟩ := ih cs q1 q2 ht
        refine ⟨?_, ?_⟩
        · simp [ih1]
        · simp only [List.length_cons]
          omega

theorem decodeOne_length (cs p rest : List Char) (h : decodeOne cs = some (p, rest)) :
    rest.length < cs.length := by
  unfold decodeOne at h
  have hspan := spanDigits_length cs
  cases hs : spanDigits cs with
  | mk ds rs =>
    rw [hs] at h hspan
    cases ds with
    | nil => simp at h
    | cons d ds =>
      cases rs with
      | nil => simp at h
      | cons c1 rest2 =>
        by_cases hc : c1 = ':'
        · subst hc
          simp at h
          cases ht : takeExact (digitsToNat (d :: ds)) rest2 with
          | none => rw [ht] at h; simp at h
          | some q =>
            obtain ⟨payload, rest3⟩ := q
            rw [ht] at h
            have hlen := takeExact_length _ _ _ _ ht
            cases rest3 with
            | nil => simp at h
            | cons c2 rest4 =>
              by_cases hc2 : c2 = ','
              · subst hc2
                simp at h
                obtain ⟨rfl, rfl⟩ := h
                simp at hspan hlen
                omega
              · simp [hc2] at h
        · simp [hc] at h

theorem streamFuel_spec (jp : String → Option FlowState) :
    ∀ (n : Nat) (cs : List Char), cs.length ≤ n →
    ((∀ msg, streamFuel jp n cs = .error (.flowReadError msg) → msg = "Invalid data format.") ∧
     (decodeAllFuel n cs = none → (∀ s, (jp s).isSome = true) →
        streamFuel jp n cs = .error (.flowReadError "Invalid data format.")) ∧
     (∀ frames, decodeAllFuel n cs = some frames →
        streamFuel jp n cs
          = match frames.mapM (fun pl => jp (String.mk pl)) with
            | some sts => .ok (sts.map Flow.from_state)
            | none => .error .valueError)) := by
  intro n
  induction n with
  | zero =>
    intro cs hlen
    have hnil : cs = [] := List.eq_nil_of_length_eq_zero (Nat.le_zero.mp hlen)
    subst hnil
    refine ⟨?_, ?_, ?_⟩
    · intro msg h; simp [streamFuel] at h
    · intro h; simp [decodeAllFuel] at h
    · intro frames h
      simp [decodeAllFuel] at h
      subst h
      rfl
  | succ n ih =>
    intro cs hlen
    cases cs with
    | nil =>
      refine ⟨?_, ?_, ?_⟩
      · intro msg h; simp [streamFuel] at h
      · intro h; simp [decodeAllFuel] at h
      · intro frames h
        simp [decodeAllFuel] at h
        subst h
        rfl
    | cons c cs' =>
      cases hd : decodeOne (c :: cs') with
      | none =>
        refine ⟨?_, ?_, ?_⟩
        · intro msg h
          simp [streamFuel, hd] at h
          exact h.symm
        · intro _ _; simp [streamFuel, hd]
        · intro frames h; simp [decodeAllFuel, hd] at h
      | some pr =>
        obtain ⟨payload, rest⟩ := pr
        have hlt : rest.length < (c :: cs').length := decodeOne_length _ _ _ hd
        have hle : rest.length ≤ n := by
          simp only [List.length_cons] at hlt hlen
          omega
        have IH := ih rest hle
        cases hjp : jp (String.mk payload) with
        | none =>
          refine ⟨?_, ?_, ?_⟩
          · intro msg h; simp [streamFuel, hd, hjp] at h
          · intro hna htot
            have := htot (String.mk payload)
            rw [hjp] at this
            simp at this
          · intro frames h
            simp only [decodeAllFuel, hd, Option.map_eq_some'] at h
            obtain ⟨fr', hfr', hcons⟩ := h
            subst hcons
            have hm : (payload :: fr').mapM (fun pl => jp (String.mk pl)) = none := by
              rw [List.mapM_cons, hjp]
              rfl
            rw [hm]
            simp only [streamFuel, hd, hjp]
        | some st =>
          refine ⟨?_, ?_, ?_⟩
          · intro msg h
            simp only [streamFuel, hd, hjp] at h
            cases hrec : streamFuel jp n rest with
            | ok fs => rw [hrec] at h; simp at h
            | error e =>
              rw [hrec] at h
              simp at h
              subst h
              exact IH.1 msg hrec
          · intro hna htot
            simp only [decodeAllFuel, hd, Option.map_eq_none'] at hna
            have hstream := IH.2.1 hna htot
            simp only [streamFuel, hd, hjp, hstream]
          · intro frames h
            simp only [decodeAllFuel, hd, Option.map_eq_some'] at h
            obtain ⟨fr', hfr', hcons⟩ := h
            subst hcons
            have hrec := IH.2.2 fr' hfr'
            cases hm : fr'.mapM (fun pl => jp (String.mk pl)) with
            | none =>
              rw [hm] at hrec
              simp only at hrec
              have hm2 : (payload :: fr').mapM (fun pl => jp (String.mk pl)) = none := by
                rw [List.mapM_cons, hjp, hm]
                rfl
              rw [hm2]
              simp only [streamFuel, hd, hjp, hrec]
            | some sts =>
              rw [hm] at hrec
              simp only at hrec
              have hm2 : (payload :: fr').mapM (fun pl => jp (String.mk pl)) = some (st :: sts) := by
                rw [List.mapM_cons, hjp, hm]
                rfl
              rw [hm2]
              simp only [streamFuel, hd, hjp, hrec, List.map_cons]

/-- Claim C6, counterexample: a well-framed frame whose payload is not JSON
fails with the raw `ValueError` of `json.loads`, not with
`FlowReadError("Invalid data format.")` — only `netstring.DecoderError` is
caught. -/
theorem C6_counterexample :
    FlowReader.stream (fun _ => none) ("2:ab,".toList) = Except.error StreamErr.valueError ∧
    (Except.error StreamErr.valueError : Except StreamErr (List Flow))
      ≠ Except.error (StreamErr.flowReadError "Invalid data format.") := by
  refine ⟨rfl, ?_⟩
  intro h
  injection h with h2
  exact StreamErr.noConfusion h2

/-- Claim C6 (amended): every `FlowReadError` raised by `stream` carries
exactly "Invalid data format.", and a framing violation raises it (whenever
the JSON parser does not fail first); a JSON parse error in a frame instead
propagates as the raw `ValueError`, and a fully parseable well-framed stream
yields the deserialized flows in order. -/
theorem C6_amended (jp : String → Option FlowState) (cs : List Char) :
    (∀ msg, FlowReader.stream jp cs = .error (.flowReadError msg) → msg = "Invalid data format.") ∧
    (netstringDecode cs = none → (∀ s, (jp s).isSome = true) →
      FlowReader.stream jp cs = .error (.flowReadError "Invalid data format.")) ∧
    (∀ frames, netstringDecode cs = some frames →
      FlowReader.stream jp cs
        = match frames.mapM (fun pl => jp (String.mk pl)) with
          | some sts => .ok (sts.map Flow.from_state)
          | none => .error .valueError) :=
  streamFuel_spec jp cs.length cs (Nat.le_refl _)

/-- Claim C6, witness: a single empty well-framed frame with a total parser
yields one flow. -/
theorem C6_witness :
    FlowReader.stream (fun _ => some (FlowState.mk none none none IVERSION none)) ("0:,".toList)
      = Except.ok [Flow.from_state (FlowState.mk none none none IVERSION none)] := by
  have h := (C6_amended (fun _ => some (FlowState.mk none none none IVERSION none))
    ("0:,".toList)).2.2 [[]] rfl
  exact h

theorem assocGet_cons {K V : Type} [DecidableEq K] (q : K × V) (m : List (K × V)) (k : K) :
    assocGet (q :: m) k = if q.1 = k then some q.2 else assocGet m k := by
  by_cases h : q.1 = k <;> simp [assocGet, List.find?_cons, h]

theorem assocSet_cons {K V : Type} [DecidableEq K] (q : K × V) (m : List (K × V)) (k : K) (v : V) :
    assocSet (q :: m) k v
      = if q.1 = k then (k, v) :: m.map (fun p => if p.1 = k then (k, v) else p)
        else q :: assocSet m k v := by
  by_cases h : q.1 = k
  · simp [assocSet, List.find?_cons, h]
  · cases hf : m.find? (fun p => decide (p.1 = k)) <;>
      simp [assocSet, List.find?_cons, h, hf]

theorem assocGet_eq_none_iff {K V : Type} [DecidableEq K] (m : List (K × V)) (k : K) :
    assocGet m k = none ↔ ∀ p ∈ m, p.1 ≠ k := by
  constructor
  · intro h p hp hk
    have hsome : (m.find? (fun p => decide (p.1 = k))).isSome :=
      List.find?_isSome.mpr ⟨p, hp, by simpa using hk⟩
    unfold assocGet at h
    cases hf : m.find? (fun p => decide (p.1 = k)) with
    | none => rw [hf] at hsome; simp at hsome
    | some q => rw [hf] at h; simp at h
  · intro h
    have hf : m.find? (fun p => decide (p.1 = k)) = none :=
      List.find?_eq_none.mpr (fun p hp => by simpa using h p hp)
    unfold assocGet
    rw [hf]

theorem assocGet_assocSet_self {K V : Type} [DecidableEq K] (m : List (K × V)) (k : K) (v : V) :
    assocGet (assocSet m k v) k = some v := by
  induction m with
  | nil => simp [assocSet, assocGet, List.find?]
  | cons q m ih =>
    rw [assocSet_cons]
    by_cases h : q.1 = k
    · simp [h, assocGet_cons]
    · simp [h, assocGet_cons, ih]

theorem assocGet_map_subst_ne {K V : Type} [DecidableEq K] (m : List (K × V)) (k k' : K) (v : V)
    (hne : k' ≠ k) :
    assocGet (m.map (fun p => if p.1 = k then (k, v) else p)) k' = assocGet m k' := by
  induction m with
  | nil => rfl
  | cons p m ihm =>
    rw [List.map_cons]
    by_cases hp : p.1 = k
    · rw [if_pos hp, assocGet_cons, assocGet_cons]
      rw [if_neg (show ¬ (k, v).1 = k' from fun h2 => hne h2.symm)]
      rw [if_neg (show ¬ p.1 = k' from by rw [hp]; exact fun h2 => hne h2.symm)]
      exact ihm
    · rw [if_neg hp, assocGet_cons, assocGet_cons]
      by_cases hpk : p.1 = k'
      · rw [if_pos hpk, if_pos hpk]
      · rw [if_neg hpk, if_neg hpk]
        exact ihm

theorem assocGet_assocSet_ne {K V : Type} [DecidableEq K] (m : List (K × V)) (k k' : K) (v : V)
    (hne : k' ≠ k) : assocGet (assocSet m k v) k' = assocGet m k' := by
  induction m with
  | nil =>
    show assocGet [(k, v)] k' = assocGet [] k'
    rw [assocGet_cons, if_neg (show ¬ (k, v).1 = k' from fun h2 => hne h2.symm)]
  | cons q m ih =>
    rw [assocSet_cons]
    by_cases h : q.1 = k
    · rw [if_pos h, assocGet_cons, assocGet_cons]
      rw [if_neg (show ¬ (k, v).1 = k' from fun h2 => hne h2.symm)]
      rw [if_neg (show ¬ q.1 = k' from by rw [h]; exact fun h2 => hne h2.symm)]
      exact assocGet_map_subst_ne m k k' v hne
    · rw [if_neg h, assocGet_cons, assocGet_cons]
      by_cases hq : q.1 = k'
      · rw [if_pos hq, if_pos hq]
      · rw [if_neg hq, if_neg hq]
        exact ih

theorem mem_assocSet {K V : Type} [DecidableEq K] (m : List (K × V)) (k : K) (v : V)
    (q : K × V) (hq : q ∈ assocSet m k v) : q ∈ m ∨ q = (k, v) := by
  induction m with
  | nil =>
    have he : assocSet ([] : List (K × V)) k v = [(k, v)] := rfl
    rw [he] at hq
    right
    simpa using hq
  | cons p m ih =>
    rw [assocSet_cons] at hq
    by_cases h : p.1 = k
    · rw [if_pos h] at hq
      rcases List.mem_cons.mp hq with h1 | h1
      · right; exact h1
      · obtain ⟨w, hw, hsub⟩ := List.mem_map.mp h1
        by_cases hw2 : w.1 = k
        · right; rw [← hsub, if_pos hw2]
        · left; rw [← hsub, if_neg hw2]; exact List.mem_cons_of_mem _ hw
    · rw [if_neg h] at hq
      rcases List.mem_cons.mp hq with h1 | h1
      · left; rw [h1]; exact List.mem_cons_self _ _
      · rcases ih h1 with h2 | h2
        · left; exact List.mem_cons_of_mem _ h2
        · right; exact h2

theorem assocGet_append_of_none {K V : Type} [DecidableEq K] (m tail : List (K × V)) (k : K)
    (hg : assocGet m k = none) : assocGet (m ++ tail) k = assocGet tail k := by
  induction m with
  | nil => rfl
  | cons p m ih =>
    rw [assocGet_cons] at hg
    by_cases hp : p.1 = k
    · rw [if_pos hp] at hg; simp at hg
    · rw [if_neg hp] at hg
      rw [List.cons_append, assocGet_cons, if_neg hp]
      exact ih hg

theorem assocGet_append_single_ne {K V : Type} [DecidableEq K] (m : List (K × V)) (p : K × V)
    (k : K) (hp : ¬ p.1 = k) : assocGet (m ++ [p]) k = assocGet m k := by
  induction m with
  | nil =>
    show assocGet [p] k = assocGet ([] : List (K × V)) k
    rw [assocGet_cons, if_neg hp]
  | cons q m ih =>
    rw [List.cons_append, assocGet_cons, assocGet_cons]
    by_cases hq : q.1 = k
    · rw [if_pos hq, if_pos hq]
    · rw [if_neg hq, if_neg hq]; exact ih

theorem bucketAppend_self (m : List ((List String × List (String × List String)) × List Flow))
    (k : List String × List (String × List String)) (f : Flow) :
    assocGet (bucketAppend m k f) k = some ((assocGet m k).getD [] ++ [f]) := by
  unfold bucketAppend
  cases hg : assocGet m k with
  | some l => simp [assocGet_assocSet_self]
  | none =>
    simp only [Option.getD_none, List.nil_append]
    rw [assocGet_append_of_none m [(k, [f])] k hg, assocGet_cons,
      if_pos (show (k, [f]).1 = k from rfl)]

theorem bucketAppend_ne (m : List ((List String × List (String × List String)) × List Flow))
    (k k' : List String × List (String × List String)) (f : Flow) (hne : k' ≠ k) :
    assocGet (bucketAppend m k f) k' = assocGet m k' := by
  unfold bucketAppend
  cases hg : assocGet m k with
  | some l => exact assocGet_assocSet_ne m k k' (l ++ [f]) hne
  | none =>
    exact assocGet_append_single_ne m (k, [f]) k' (fun h => hne h.symm)

theorem sum_assocSet_present {V : Type} (m : List ((List String × List (String × List String)) × List V))
    (k : List String × List (String × List String)) (l : List V) (f : V)
    (nd : (m.map (·.1)).Nodup) (hg : assocGet m k = some l) :
    ((assocSet m k (l ++ [f])).map (fun p => p.2.length)).sum
      = (m.map (fun p => p.2.length)).sum + 1 := by
  induction m with
  | nil => simp [assocGet] at hg
  | cons q m ih =>
    rw [assocGet_cons] at hg
    rw [assocSet_cons]
    by_cases hq : q.1 = k
    · rw [if_pos hq]
      rw [if_pos hq] at hg
      have hl : q.2 = l := by injection hg
      have hnk : ∀ p ∈ m, ¬ p.1 = k := by
        intro p hp hpk
        rw [List.map_cons] at nd
        apply (List.nodup_cons.mp nd).1
        rw [hq, ← hpk]
        exact List.mem_map_of_mem (·.1) hp
      have hid : m.map (fun p => if p.1 = k then (k, l ++ [f]) else p) = m := by
        conv_rhs => rw [← List.map_id m]
        apply List.map_congr_left
        intro p hp
        rw [if_neg (hnk p hp)]
        rfl
      rw [hid]
      simp [hl]
      omega
    · rw [if_neg hq]
      rw [if_neg hq] at hg
      rw [List.map_cons] at nd
      have ihr := ih (List.nodup_cons.mp nd).2 hg
      simp only [List.map_cons, List.sum_cons, ihr]
      omega

theorem keys_assocSet_present {K V : Type} [DecidableEq K] (m : List (K × V)) (k : K) (v : V) :
    (m.map (fun p => if p.1 = k then (k, v) else p)).map (·.1) = m.map (·.1) := by
  rw [List.map_map]
  apply List.map_congr_left
  intro p _
  by_cases hp : p.1 = k
  · simp [hp]
  · simp [hp]

theorem bucketAppend_eq_of_some (m : List ((List String × List (String × List String)) × List Flow))
    (k : List String × List (String × List String)) (f : Flow) (l : List Flow)
    (hg : assocGet m k = some l) : bucketAppend m k f = assocSet m k (l ++ [f]) := by
  unfold bucketAppend
  rw [hg]

theorem bucketAppend_eq_of_none (m : List ((List String × List (String × List String)) × List Flow))
    (k : List String × List (String × List String)) (f : Flow)
    (hg : assocGet m k = none) : bucketAppend m k f = m ++ [(k, [f])] := by
  unfold bucketAppend
  rw [hg]

theorem count_bucketAppend (m : List ((List String × List (String × List String)) × List Flow))
    (k : List String × List (String × List String)) (f : Flow)
    (nd : (m.map (·.1)).Nodup) :
    ((bucketAppend m k f).map (fun p => p.2.length)).sum
      = (m.map (fun p => p.2.length)).sum + 1 := by
  cases hg : assocGet m k with
  | some l =>
    rw [bucketAppend_eq_of_some m k f l hg]
    exact sum_assocSet_present m k l f nd hg
  | none =>
    rw [bucketAppend_eq_of_none m k f hg]
    simp

theorem keys_bucketAppend_nodup (m : List ((List String × List (String × List String)) × List Flow))
    (k : List String × List (String × List String)) (f : Flow)
    (nd : (m.map (·.1)).Nodup) :
    ((bucketAppend m k f).map (·.1)).Nodup := by
  cases hg : assocGet m k with
  | some l =>
    rw [bucketAppend_eq_of_some m k f l hg]
    unfold assocSet
    by_cases hs : (m.find? (fun p => decide (p.1 = k))).isSome
    · rw [if_pos hs, keys_assocSet_present]
      exact nd
    · rw [if_neg hs]
      have hk : k ∉ m.map (·.1) := by
        intro hmem
        obtain ⟨p, hp, hpk⟩ := List.mem_map.mp hmem
        have : (m.find? (fun p => decide (p.1 = k))).isSome :=
          List.find?_isSome.mpr ⟨p, hp, by simpa using hpk⟩
        exact hs this
      simp only [List.map_append, List.map_cons, List.map_nil]
      rw [List.nodup_append]
      exact ⟨nd, List.nodup_singleton k, by simpa using fun h => hk h⟩
  | none =>
    rw [bucketAppend_eq_of_none m k f hg]
    have hk : k ∉ m.map (·.1) := by
      intro hmem
      obtain ⟨p, hp, hpk⟩ := List.mem_map.mp hmem
      exact (assocGet_eq_none_iff m k).mp hg p hp hpk
    simp only [List.map_append, List.map_cons, List.map_nil]
    rw [List.nodup_append]
    exact ⟨nd, List.nodup_singleton k, by simpa using fun h => hk h⟩

theorem mem_bucketAppend (m : List ((List String × List (String × List String)) × List Flow))
    (k : List String × List (String × List String)) (f : Flow) (q) (g : Flow)
    (hq : q ∈ bucketAppend m k f) (hg : g ∈ q.2) :
    (∃ q' ∈ m, g ∈ q'.2) ∨ g = f := by
  unfold bucketAppend at hq
  cases hget : assocGet m k with
  | some l =>
    rw [hget] at hq
    rcases mem_assocSet _ _ _ _ hq with h1 | h1
    · exact Or.inl ⟨q, h1, hg⟩
    · subst h1
      simp only at hg
      rcases List.mem_append.mp hg with h2 | h2
      · left
        have : ∃ p, m.find? (fun p => decide (p.1 = k)) = some p := by
          cases hf : m.find? (fun p => decide (p.1 = k)) with
          | none => simp [assocGet, hf] at hget
          | some p => exact ⟨p, rfl⟩
        obtain ⟨p, hp⟩ := this
        have hpm := List.mem_of_find?_eq_some hp
        have hpv : p.2 = l := by simp [assocGet, hp] at hget; exact hget
        exact ⟨p, hpm, hpv ▸ h2⟩
      · right; simpa using h2
  | none =>
    rw [hget] at hq
    rcases List.mem_append.mp hq with h1 | h1
    · exact Or.inl ⟨q, h1, hg⟩
    · simp at h1
      subst h1
      simp at hg
      exact Or.inr hg

theorem addFlow_cases (sp : ServerPlaybackState) (f : Flow) (sp' : ServerPlaybackState)
    (h : sp.addFlow f = some sp') :
    (f.response.isSome = false ∧ sp' = sp) ∨
    (∃ r, f.response.isSome = true ∧ f.request = some r ∧
      sp' = { sp with fmap := bucketAppend sp.fmap (requestKey sp.headers r) f }) := by
  unfold ServerPlaybackState.addFlow at h
  cases hr : f.response.isSome with
  | false =>
    rw [hr] at h
    simp at h
    exact Or.inl ⟨rfl, h.symm⟩
  | true =>
    rw [hr] at h
    simp only [if_true] at h
    cases hreq : f.request with
    | none => rw [hreq] at h; simp at h
    | some r =>
      rw [hreq] at h
      simp at h
      exact Or.inr ⟨r, rfl, rfl, h.symm⟩

theorem make_fold_headers : ∀ (flows : List Flow) (sp0 sp : ServerPlaybackState),
    List.foldlM ServerPlaybackState.addFlow sp0 flows = some sp → sp.headers = sp0.headers := by
  intro flows
  induction flows with
  | nil =>
    intro sp0 sp h
    simp at h
    rw [← h]
  | cons g gs ih =>
    intro sp0 sp h
    rw [List.foldlM_cons] at h
    cases haf : sp0.addFlow g with
    | none => rw [haf] at h; simp at h
    | some sp1 =>
      rw [haf] at h
      have h2 : List.foldlM ServerPlaybackState.addFlow sp1 gs = some sp := by simpa using h
      have hh := ih sp1 sp h2
      rcases addFlow_cases sp0 g sp1 haf with ⟨_, heq⟩ | ⟨r, _, _, heq⟩
      · rw [heq] at hh; exact hh
      · rw [heq] at hh; exact hh

theorem make_fold_bucket : ∀ (flows : List Flow) (sp0 sp : ServerPlaybackState)
    (k : List String × List (String × List String)),
    List.foldlM ServerPlaybackState.addFlow sp0 flows = some sp →
    (assocGet sp.fmap k).getD []
      = (assocGet sp0.fmap k).getD []
        ++ flows.filter (fun g => g.response.isSome &&
            decide (g.request.map (requestKey sp0.headers) = some k)) := by
  intro flows
  induction flows with
  | nil =>
    intro sp0 sp k h
    simp at h
    rw [← h]
    simp
  | cons g gs ih =>
    intro sp0 sp k h
    rw [List.foldlM_cons] at h
    cases haf : sp0.addFlow g with
    | none => rw [haf] at h; simp at h
    | some sp1 =>
      rw [haf] at h
      have h2 : List.foldlM ServerPlaybackState.addFlow sp1 gs = some sp := by simpa using h
      have hh := ih sp1 sp k h2
      rcases addFlow_cases sp0 g sp1 haf with ⟨hresp, heq⟩ | ⟨r, hresp, hreq, heq⟩
      · rw [heq] at hh
        rw [hh, List.filter_cons]
        have hpred : (g.response.isSome && decide (g.request.map (requestKey sp0.headers) = some k)) = false := by
          rw [hresp]
          rfl
        rw [hpred]
        simp
      · rw [heq] at hh
        by_cases hk : requestKey sp0.headers r = k
        · rw [← hk] at hh ⊢
          rw [hh]
          show (assocGet (bucketAppend sp0.fmap (requestKey sp0.headers r) g) (requestKey sp0.headers r)).getD [] ++ _ = _
          rw [bucketAppend_self]
          simp only [Option.getD_some]
          rw [List.filter_cons]
          have hpred : (g.response.isSome &&
              decide (g.request.map (requestKey sp0.headers) = some (requestKey sp0.headers r))) = true := by
            rw [hresp, hreq]
            simp
          rw [hpred]
          simp
        · rw [hh]
          show (assocGet (bucketAppend sp0.fmap (requestKey sp0.headers r) g) k).getD [] ++ _ = _
          rw [bucketAppend_ne sp0.fmap (requestKey sp0.headers r) k g (fun h2 => hk h2.symm)]
          rw [List.filter_cons]
          have hpred : (g.response.isSome &&
              decide (g.request.map (requestKey sp0.headers) = some k)) = false := by
            rw [hresp, hreq]
            simp [hk]
          rw [hpred]
          rfl

theorem make_fold_resp : ∀ (flows : List Flow) (sp0 sp : ServerPlaybackState),
    (∀ p ∈ sp0.fmap, ∀ g ∈ p.2, g.response.isSome = true) →
    List.foldlM ServerPlaybackState.addFlow sp0 flows = some sp →
    ∀ p ∈ sp.fmap, ∀ g ∈ p.2, g.response.isSome = true := by
  intro flows
  induction flows with
  | nil =>
    intro sp0 sp h0 h
    simp at h
    rw [← h]
    exact h0
  | cons g gs ih =>
    intro sp0 sp h0 h
    rw [List.foldlM_cons] at h
    cases haf : sp0.addFlow g with
    | none => rw [haf] at h; simp at h
    | some sp1 =>
      rw [haf] at h
      have h2 : List.foldlM ServerPlaybackState.addFlow sp1 gs = some sp := by simpa using h
      refine ih sp1 sp ?_ h2
      rcases addFlow_cases sp0 g sp1 haf with ⟨_, heq⟩ | ⟨r, hresp, _, heq⟩
      · rw [heq]; exact h0
      · rw [heq]
        intro p hp g2 hg2
        rcases mem_bucketAppend sp0.fmap (requestKey sp0.headers r) g p g2 hp hg2 with ⟨q', hq', hgq⟩ | hgf
        · exact h0 q' hq' g2 hgq
        · rw [hgf]
          exact hresp

theorem make_fold_count : ∀ (flows : List Flow) (sp0 sp : ServerPlaybackState),
    (sp0.fmap.map (·.1)).Nodup →
    List.foldlM ServerPlaybackState.addFlow sp0 flows = some sp →
    sp.count = sp0.count + (flows.filter (fun g => g.response.isSome)).length ∧
    (sp.fmap.map (·.1)).Nodup := by
  intro flows
  induction flows with
  | nil =>
    intro sp0 sp nd h
    simp at h
    rw [← h]
    simpa using nd
  | cons g gs ih =>
    intro sp0 sp nd h
    rw [List.foldlM_cons] at h
    cases haf : sp0.addFlow g with
    | none => rw [haf] at h; simp at h
    | some sp1 =>
      rw [haf] at h
      have h2 : List.foldlM ServerPlaybackState.addFlow sp1 gs = some sp := by simpa using h
      rcases addFlow_cases sp0 g sp1 haf with ⟨hresp, heq⟩ | ⟨r, hresp, hreq, heq⟩
      · rw [heq] at h2
        obtain ⟨hc, hn⟩ := ih sp0 sp nd h2
        refine ⟨?_, hn⟩
        rw [hc, List.filter_cons, hresp]
        simp
      · rw [heq] at h2
        have nd1 : (({ sp0 with fmap := bucketAppend sp0.fmap (requestKey sp0.headers r) g } : ServerPlaybackState).fmap.map (·.1)).Nodup :=
          keys_bucketAppend_nodup sp0.fmap (requestKey sp0.headers r) g nd
        obtain ⟨hc, hn⟩ := ih _ sp nd1 h2
        refine ⟨?_, hn⟩
        rw [hc]
        show ((bucketAppend sp0.fmap (requestKey sp0.headers r) g).map (fun p => p.2.length)).sum + _ = _
        rw [count_bucketAppend sp0.fmap (requestKey sp0.headers r) g nd]
        rw [List.filter_cons, hresp]
        simp [ServerPlaybackState.count]
        omega

/-- Claim C10: every flow stored in the playback map has a response — the
constructor skips response-less flows silently, `count()` counts exactly the
response-bearing input flows, and `next_flow` both returns only
response-bearing flows and preserves the property. -/
theorem C10_playback_only_response_flows (headers : List String) (flows : List Flow) (e : Bool)
    (sp : ServerPlaybackState) (hmk : ServerPlaybackState.make headers flows e = some sp) :
    (∀ p ∈ sp.fmap, ∀ g ∈ p.2, g.response.isSome = true) ∧
    sp.count = (flows.filter (fun g => g.response.isSome)).length ∧
    (∀ sq : ServerPlaybackState, (∀ p ∈ sq.fmap, ∀ g ∈ p.2, g.response.isSome = true) →
      ∀ probe res, sq.next_flow probe = some res →
        (∀ g, res.1 = some g → g.response.isSome = true) ∧
        (∀ p ∈ res.2.fmap, ∀ g ∈ p.2, g.response.isSome = true)) := by
  unfold ServerPlaybackState.make at hmk
  refine ⟨make_fold_resp flows _ sp (by intro p hp; simp at hp) hmk, ?_, ?_⟩
  · have := make_fold_count flows _ sp (by simp) hmk
    simpa [ServerPlaybackState.count] using this.1
  · intro sq hinv probe res hnf
    unfold ServerPlaybackState.next_flow at hnf
    cases hreq : probe.request with
    | none => rw [hreq] at hnf; simp at hnf
    | some r =>
      rw [hreq] at hnf
      cases hget : assocGet sq.fmap (requestKey sq.headers r) with
      | none =>
        simp only [hget] at hnf
        simp at hnf
        rw [← hnf]
        exact ⟨by intro g h; simp at h, hinv⟩
      | some l =>
        simp only [hget] at hnf
        cases l with
        | nil =>
          simp at hnf
          rw [← hnf]
          exact ⟨by intro g h; simp at h, hinv⟩
        | cons x xs =>
          simp at hnf
          rw [← hnf]
          have hpair : ∃ p, sq.fmap.find? (fun p => decide (p.1 = requestKey sq.headers r)) = some p ∧ p.2 = x :: xs := by
            unfold assocGet at hget
            cases hf : sq.fmap.find? (fun p => decide (p.1 = requestKey sq.headers r)) with
            | none => rw [hf] at hget; simp at hget
            | some p =>
              rw [hf] at hget
              simp at hget
              exact ⟨p, rfl, hget⟩
          obtain ⟨p, hp, hpv⟩ := hpair
          have hpm := List.mem_of_find?_eq_some hp
          have hx : x ∈ p.2 := by rw [hpv]; exact List.mem_cons_self _ _
          refine ⟨?_, ?_⟩
          · intro g hg
            simp at hg
            rw [← hg]
            exact hinv p hpm x hx
          · intro q hq g hg
            simp at hq
            rcases mem_assocSet sq.fmap (requestKey sq.headers r) xs q hq with h1 | h1
            · exact hinv q h1 g hg
            · rw [h1] at hg
              simp at hg
              refine hinv p hpm g ?_
              rw [hpv]
              exact List.mem_cons_of_mem _ hg

/-- Claim C10, witness: a one-flow playback map built from one
response-bearing flow has count 1. -/
theorem C10_witness :
    (ServerPlaybackState.mk [] false [(requestKey [] reqA, [flowW])]).count
      = ([flowW].filter (fun g => g.response.isSome)).length :=
  (C10_playback_only_response_flows [] [flowW] false
    ⟨[], false, [(requestKey [] reqA, [flowW])]⟩ rfl).2.1

theorem nextN_drain : ∀ (l : List Flow) (sp : ServerPlaybackState) (probe : Flow) (r : Request),
    probe.request = some r →
    (assocGet sp.fmap (requestKey sp.headers r)).getD [] = l →
    (sp.nextN probe l.length).1 = l.map some ∧
    ((sp.nextN probe l.length).2.next_flow probe
        = some (none, (sp.nextN probe l.length).2)) ∧
    (sp.nextN probe l.length).2.headers = sp.headers := by
  intro l
  induction l with
  | nil =>
    intro sp probe r hreq hb
    refine ⟨rfl, ?_, rfl⟩
    show sp.next_flow probe = some (none, sp)
    unfold ServerPlaybackState.next_flow
    rw [hreq]
    cases hget : assocGet sp.fmap (requestKey sp.headers r) with
    | none => simp [hget]
    | some l' =>
      rw [hget] at hb
      simp at hb
      subst hb
      simp [hget]
  | cons x xs ih =>
    intro sp probe r hreq hb
    have hget : assocGet sp.fmap (requestKey sp.headers r) = some (x :: xs) := by
      cases hg : assocGet sp.fmap (requestKey sp.headers r) with
      | none => rw [hg] at hb; simp at hb
      | some l' => rw [hg] at hb; simp at hb; rw [hb]
    have hstep : sp.next_flow probe
        = some (some x, { sp with fmap := assocSet sp.fmap (requestKey sp.headers r) xs }) := by
      unfold ServerPlaybackState.next_flow
      rw [hreq]
      simp [hget]
    have hb1 : (assocGet ({ sp with fmap := assocSet sp.fmap (requestKey sp.headers r) xs } : ServerPlaybackState).fmap
        (requestKey ({ sp with fmap := assocSet sp.fmap (requestKey sp.headers r) xs } : ServerPlaybackState).headers r)).getD [] = xs := by
      show (assocGet (assocSet sp.fmap (requestKey sp.headers r) xs) (requestKey sp.headers r)).getD [] = xs
      rw [assocGet_assocSet_self]
      rfl
    have IH := ih { sp with fmap := assocSet sp.fmap (requestKey sp.headers r) xs } probe r hreq hb1
    have e1 : sp.nextN probe (xs.length + 1)
        = (match sp.next_flow probe with
           | none => ([], sp)
           | some (res, sp') => (res :: (sp'.nextN probe xs.length).1, (sp'.nextN probe xs.length).2)) := rfl
    have hunf : sp.nextN probe (xs.length + 1)
        = (some x :: (({ sp with fmap := assocSet sp.fmap (requestKey sp.headers r) xs } : ServerPlaybackState).nextN probe xs.length).1,
           (({ sp with fmap := assocSet sp.fmap (requestKey sp.headers r) xs } : ServerPlaybackState).nextN probe xs.length).2) := by
      rw [e1, hstep]
    refine ⟨?_, ?_, ?_⟩
    · simp only [List.length_cons]
      rw [hunf]
      simp only [List.map_cons]
      rw [IH.1]
    · simp only [List.length_cons]
      rw [hunf]
      exact IH.2.1
    · simp only [List.length_cons]
      rw [hunf]
      exact IH.2.2

/-- Claim C5: the bucket of a fingerprint holds exactly the recorded
response-bearing flows of that fingerprint, in their original insertion
order; when it has length `k`, the first `k` `next_flow` calls with a probe
of that fingerprint return those flows in order and the `(k+1)`-th call
returns `none`. -/
theorem C5_playback_fifo (headers : List String) (flows : List Flow) (e : Bool)
    (sp : ServerPlaybackState) (probe : Flow) (r : Request) (k : Nat)
    (hmk : ServerPlaybackState.make headers flows e = some sp)
    (hreq : probe.request = some r)
    (hk : ((assocGet sp.fmap (requestKey headers r)).getD []).length = k) :
    (assocGet sp.fmap (requestKey headers r)).getD []
      = flows.filter (fun g => g.response.isSome &&
          decide (g.request.map (requestKey headers) = some (requestKey headers r))) ∧
    (sp.nextN probe k).1 = ((assocGet sp.fmap (requestKey headers r)).getD []).map some ∧
    ((sp.nextN probe k).2.next_flow probe = some (none, (sp.nextN probe k).2)) := by
  unfold ServerPlaybackState.make at hmk
  have hh : sp.headers = headers := make_fold_headers flows _ sp hmk
  have hbucket := make_fold_bucket flows _ sp (requestKey headers r) hmk
  simp only [List.nil_append] at hbucket
  have hbucket2 : (assocGet sp.fmap (requestKey headers r)).getD []
      = flows.filter (fun g => g.response.isSome &&
          decide (g.request.map (requestKey headers) = some (requestKey headers r))) := by
    rw [hbucket]
    have : assocGet ({ headers := headers, exit := e, fmap := [] } : ServerPlaybackState).fmap
        (requestKey headers r) = none := rfl
    rw [this]
    rfl
  subst hk
  have hdrain := nextN_drain ((assocGet sp.fmap (requestKey headers r)).getD []) sp probe r hreq
    (by rw [hh])
  exact ⟨hbucket2, hdrain.1, hdrain.2.1⟩

/-- Claim C5, witness: one recorded flow, probed with its own request:
the first call returns it, the second misses. -/
theorem C5_witness :
    ((ServerPlaybackState.mk [] false [(requestKey [] reqA, [flowW])]).nextN flowW 1).1
      = [some flowW] := by
  have h := (C5_playback_fifo [] [flowW] false
    ⟨[], false, [(requestKey [] reqA, [flowW])]⟩ flowW reqA 1 rfl rfl rfl).2.1
  exact h.trans (by rfl)

theorem find?_map_subst (l : List Flow) (fid : Nat) (f g : Flow)
    (hget : l.find? (fun h => decide (h.fid = fid)) = some g) (hfid : f.fid = fid) :
    (l.map (fun h => if h.fid = fid then f else h)).find? (fun h => decide (h.fid = fid))
      = some f := by
  induction l with
  | nil => simp at hget
  | cons x l ih =>
    by_cases hx : x.fid = fid
    · rw [List.map_cons, if_pos hx, List.find?_cons]
      simp [hfid]
    · rw [List.find?_cons] at hget
      rw [show (decide (x.fid = fid)) = false by simp [hx]] at hget
      rw [List.map_cons, if_neg hx, List.find?_cons]
      rw [show (decide (x.fid = fid)) = false by simp [hx]]
      exact ih hget

theorem getFlow_setFlow_self (st : StateM) (fid : Nat) (f g : Flow)
    (hget : st.getFlow fid = some g) (hfid : f.fid = fid) :
    (st.setFlow fid f).getFlow fid = some f := by
  show (st._flow_list.map (fun h => if h.fid = fid then f else h)).find?
      (fun h => decide (h.fid = fid)) = some f
  exact find?_map_subst st._flow_list fid f g hget hfid

theorem getFlow_some_fid (st : StateM) (fid : Nat) (g : Flow)
    (hget : st.getFlow fid = some g) : g.fid = fid := by
  have hg : st._flow_list.find? (fun h => decide (h.fid = fid)) = some g := hget
  have := List.find?_some hg
  simpa using this

theorem foldl_req_preserved {α : Type} (step : Request → α → Request)
    (hstep : ∀ r a, (step r a).rid = r.rid ∧ (step r a).acked = r.acked) :
    ∀ (l : List α) (r : Request),
      ((l.foldl step r).rid = r.rid ∧ (l.foldl step r).acked = r.acked) := by
  intro l
  induction l with
  | nil => intro r; exact ⟨rfl, rfl⟩
  | cons a l ih =>
    intro r
    rw [List.foldl_cons]
    obtain ⟨h1, h2⟩ := ih (step r a)
    obtain ⟨h3, h4⟩ := hstep r a
    exact ⟨h1.trans h3, h2.trans h4⟩

theorem ReqPreserved.rfl (f : Flow) : ReqPreserved f f :=
  ⟨Eq.refl _, Eq.refl _, Eq.refl _, Eq.refl _, Eq.refl _, Eq.refl _⟩

theorem ReqPreserved.trans {h g f : Flow} (a : ReqPreserved h g) (b : ReqPreserved g f) :
    ReqPreserved h f :=
  ⟨a.1.trans b.1, a.2.1.trans b.2.1, a.2.2.1.trans b.2.2.1, a.2.2.2.1.trans b.2.2.2.1,
   a.2.2.2.2.1.trans b.2.2.2.2.1, a.2.2.2.2.2.trans b.2.2.2.2.2⟩

theorem reqmap_preserved (f : Flow) (g : Request → Request)
    (hg : ∀ r, (g r).rid = r.rid ∧ (g r).acked = r.acked) :
    ReqPreserved { f with request := f.request.map g } f := by
  cases hr : f.request with
  | none => exact ⟨rfl, by rw [hr]; rfl, by rw [hr]; rfl, rfl, rfl, rfl⟩
  | some r =>
    refine ⟨rfl, ?_, ?_, rfl, rfl, rfl⟩
    · rw [hr]; simp [(hg r).1]
    · rw [hr]; simp [(hg r).2]

theorem applyCookie_preserves (sc : StickyCookieState) (r : Request)
    (kv : (String × Nat × String) × Morsel) :
    (sc.applyCookie r kv).rid = r.rid ∧ (sc.applyCookie r kv).acked = r.acked := by
  unfold StickyCookieState.applyCookie
  by_cases hc : sc.domain_match kv.1.1 r.d.host && decide (r.d.port = kv.1.2.1)
      && r.d.path.startsWith kv.1.2.2
  · rw [if_pos hc]; exact ⟨rfl, rfl⟩
  · rw [if_neg hc]; exact ⟨rfl, rfl⟩

theorem cookie_handle_request_preserves (sc : StickyCookieState) (f : Flow) :
    ReqPreserved (sc.handle_request f) f := by
  by_cases hm : f.fmatch sc.flt
  · cases hreq : f.request with
    | none =>
      have e : sc.handle_request f = f := by
        unfold StickyCookieState.handle_request
        rw [if_pos hm, hreq]
      rw [e]
      exact ReqPreserved.rfl f
    | some req =>
      have e : sc.handle_request f = { f with request := some (sc.jar.foldl sc.applyCookie req) } := by
        unfold StickyCookieState.handle_request
        rw [if_pos hm, hreq]
      rw [e]
      have hp := foldl_req_preserved sc.applyCookie (applyCookie_preserves sc) sc.jar req
      refine ⟨rfl, ?_, ?_, rfl, rfl, rfl⟩
      · rw [hreq]; simp [hp.1]
      · rw [hreq]; simp [hp.2]
  · have e : sc.handle_request f = f := by
      unfold StickyCookieState.handle_request
      rw [if_neg hm]
    rw [e]
    exact ReqPreserved.rfl f

theorem auth_handle_request_preserves (a : StickyAuthState) (f : Flow) :
    ReqPreserved (a.handle_request f).2 f := by
  cases hreq : f.request with
  | none =>
    have e : a.handle_request f = (a, f) := by
      unfold StickyAuthState.handle_request
      rw [hreq]
    rw [e]
    exact ReqPreserved.rfl f
  | some req =>
    have e : a.handle_request f
        = (if headerHas req.d.headers "authorization" then
            ({ a with hosts := assocSet a.hosts req.d.host (headerGet req.d.headers "authorization") }, f)
          else if f.fmatch a.flt then
            match assocGet a.hosts req.d.host with
            | some v =>
              (a, { f with request := some ({ req with d := { req.d with headers := headerSet req.d.headers "authorization" v } } : Request) })
            | none => (a, f)
          else (a, f)) := by
      unfold StickyAuthState.handle_request
      rw [hreq]
    rw [e]
    by_cases h1 : headerHas req.d.headers "authorization"
    · rw [if_pos h1]
      exact ReqPreserved.rfl f
    · rw [if_neg h1]
      by_cases h2 : f.fmatch a.flt
      · rw [if_pos h2]
        cases hget : assocGet a.hosts req.d.host with
        | none => exact ReqPreserved.rfl f
        | some v =>
          refine ⟨rfl, ?_, ?_, rfl, rfl, rfl⟩
          · rw [hreq]; rfl
          · rw [hreq]; rfl
      · rw [if_neg h2]
        exact ReqPreserved.rfl f

theorem specHookPipeline_preserves (m : FlowMaster) (f0 : Flow) :
    ReqPreserved (specHookPipeline m f0).2 f0 := by
  have e : (specHookPipeline m f0).2
      = (fun f : Flow => if m.anticomp then { f with request := f.request.map Request.anticomp } else f)
        ((fun f : Flow => if m.anticache then { f with request := f.request.map Request.anticache } else f)
          ((fun f : Flow => match m.stickyauth_state with
            | some a => (a.handle_request f).2
            | none => f)
            ((fun f : Flow => match m.stickycookie_state with
              | some sc => sc.handle_request f
              | none => f) f0))) := by
    unfold specHookPipeline
    cases m.stickyauth_state <;> rfl
  rw [e]
  simp only []
  have s1p : ∀ f : Flow, ReqPreserved
      (match m.stickycookie_state with
        | some sc => sc.handle_request f
        | none => f) f := by
    intro f
    cases m.stickycookie_state with
    | none => exact ReqPreserved.rfl _
    | some sc => exact cookie_handle_request_preserves sc f
  have s2p : ∀ f : Flow, ReqPreserved
      (match m.stickyauth_state with
        | some a => (a.handle_request f).2
        | none => f) f := by
    intro f
    cases m.stickyauth_state with
    | none => exact ReqPreserved.rfl _
    | some a => exact auth_handle_request_preserves a f
  have s3p : ∀ f : Flow, ReqPreserved
      (if m.anticache then { f with request := f.request.map Request.anticache } else f) f := by
    intro f
    by_cases h : m.anticache
    · rw [if_pos h]
      exact reqmap_preserved f Request.anticache (fun r => ⟨rfl, rfl⟩)
    · rw [if_neg h]
      exact ReqPreserved.rfl _
  have s4p : ∀ f : Flow, ReqPreserved
      (if m.anticomp then { f with request := f.request.map Request.anticomp } else f) f := by
    intro f
    by_cases h : m.anticomp
    · rw [if_pos h]
      exact reqmap_preserved f Request.anticomp (fun r => ⟨rfl, rfl⟩)
    · rw [if_neg h]
      exact ReqPreserved.rfl _
  exact ReqPreserved.trans (s4p _) (ReqPreserved.trans (s3p _) (ReqPreserved.trans (s2p _) (s1p f0)))

theorem requestHooks_eq_spec (m : FlowMaster) (f0 : Flow) :
    m.requestHooks f0 = specHookPipeline m f0 := rfl

theorem requestHooks_preserves (m : FlowMaster) (f0 : Flow) :
    ReqPreserved (m.requestHooks f0).2 f0 := by
  rw [requestHooks_eq_spec]
  exact specHookPipeline_preserves m f0

theorem killAckResp_none (fl : Flow) (h : fl.response = none) :
    fl.killAckResp = (fl, []) := by
  unfold Flow.killAckResp
  rw [h]

theorem killAckResp_acked (fl : Flow) (s : Response) (h : fl.response = some s)
    (ha : s.acked = true) : fl.killAckResp = (fl, []) := by
  unfold Flow.killAckResp
  rw [h]
  simp [ha]

theorem killAckResp_unacked (fl : Flow) (s : Response) (h : fl.response = some s)
    (ha : s.acked = false) :
    fl.killAckResp = ({ fl with response := some { s with acked := true } },
      [Event.ackResp (s.request.map (·.rid)) AckPayload.withNull]) := by
  unfold Flow.killAckResp
  rw [h]
  simp [ha]

theorem killAcks_unacked (f1 : Flow) (r : Request) (hr : f1.request = some r)
    (ha : r.acked = false) :
    f1.killAcks = ({ f1 with request := some { r with acked := true } },
      [Event.ackReq r.rid AckPayload.withNull]) := by
  unfold Flow.killAcks
  rw [hr]
  simp [ha]

theorem killAcks_acked (f1 : Flow) (r : Request) (hr : f1.request = some r)
    (ha : r.acked = true) : f1.killAcks = f1.killAckResp := by
  unfold Flow.killAcks
  rw [hr]
  simp [ha]

theorem handle_error_events (m : FlowMaster) (e : Error) :
    (m.handle_error e).2.2 = [Event.ackErr (e.request.map (·.rid))] := rfl

theorem killFlow_events_general (m : FlowMaster) (fid : Nat) (f : Flow)
    (hf : m.state.getFlow fid = some f) :
    (m.killFlow fid).2
      = (Flow.killAcks { f with error := some { request := f.request, msg := "Connection killed", acked := false } }).2
        ++ [Event.ackErr (f.request.map (·.rid))] := by
  unfold FlowMaster.killFlow
  simp only [hf]
  rcases hka : Flow.killAcks { f with error := some { request := f.request, msg := "Connection killed", acked := false } } with ⟨f2, ev1⟩
  simp only [hka]
  rcases hhe : FlowMaster.handle_error { m with state := m.state.setFlow fid f2 }
      { request := f.request, msg := "Connection killed", acked := false } with ⟨m2, fo, ev2⟩
  simp only [hhe]
  have hev2 : ev2 = [Event.ackErr (f.request.map (·.rid))] := by
    have h2 := congrArg (fun x : FlowMaster × Option Nat × List Event => x.2.2) hhe
    simp only [] at h2
    rw [handle_error_events] at h2
    exact h2.symm
  cases hg : m2.state.getFlow fid with
  | some g =>
    simp only [hg]
    rw [hev2]
  | none =>
    simp only [hg]
    rw [hev2]

theorem do_server_playback_none (m : FlowMaster) (fid : Nat)
    (hsp : m.server_playback = none) : m.do_server_playback fid = (m, false, []) := by
  unfold FlowMaster.do_server_playback
  rw [hsp]

theorem do_server_playback_miss (m : FlowMaster) (fid : Nat) (sp : ServerPlaybackState)
    (f : Flow) (r : Request)
    (hsp : m.server_playback = some sp)
    (hf : m.state.getFlow fid = some f)
    (hr : f.request = some r)
    (hmiss : assocGet sp.fmap (requestKey sp.headers r) = none) :
    m.do_server_playback fid = (m, false, []) := by
  have hnf : sp.next_flow f = some (none, sp) := by
    unfold ServerPlaybackState.next_flow
    rw [hr]
    simp [hmiss]
  have heq : ({ m with server_playback := some sp } : FlowMaster) = m := by
    obtain ⟨s1, s2, s3, s4, s5, s6, s7, s8, s9, s10, s11, s12, s13⟩ := m
    have h2 : s2 = some sp := hsp
    rw [h2]
  unfold FlowMaster.do_server_playback
  simp only [hsp, hf, hr, hnf, heq]

theorem process_no_playback_events (m : FlowMaster) (fid : Nat)
    (hsp : m.server_playback = none) : (m.process_new_request fid).2 = [] := by
  unfold FlowMaster.process_new_request
  cases hf : m.state.getFlow fid with
  | none => rfl
  | some f0 => simp only [hsp]

theorem process_new_request_cases (m : FlowMaster) (fid : Nat) (f0 : Flow)
    (hf : m.state.getFlow fid = some f0) :
    (m.server_playback = none →
      m.process_new_request fid
        = ({ m with state := m.state.setFlow fid (specHookPipeline m f0).2, stickyauth_state := (specHookPipeline m f0).1 }, [])) ∧
    (∀ sp r', m.server_playback = some sp →
      (specHookPipeline m f0).2.request = some r' →
      assocGet sp.fmap (requestKey sp.headers r') = none →
      (m.kill_nonreplay = false →
        (m.process_new_request fid).2 = [Event.ackReq r'.rid AckPayload.plain]) ∧
      (m.kill_nonreplay = true → r'.acked = false →
        (m.process_new_request fid).2
          = [Event.ackReq r'.rid AckPayload.withNull, Event.ackErr (some r'.rid)])) := by
  have hfid : f0.fid = fid := getFlow_some_fid _ _ _ hf
  have hfid' : (m.requestHooks f0).2.fid = fid := (requestHooks_preserves m f0).1.trans hfid
  have hf1 : (StateM.setFlow m.state fid (m.requestHooks f0).2).getFlow fid
      = some (m.requestHooks f0).2 :=
    getFlow_setFlow_self m.state fid _ f0 hf hfid'
  constructor
  · intro hsp
    unfold FlowMaster.process_new_request
    simp only [hf, hsp]
    rfl
  · intro sp r' hsp hr' hmiss
    rw [← requestHooks_eq_spec] at hr'
    have hdp := do_server_playback_miss { m with state := m.state.setFlow fid (m.requestHooks f0).2, stickyauth_state := (m.requestHooks f0).1, server_playback := some sp } fid sp (m.requestHooks f0).2 r' rfl hf1 hr' hmiss
    constructor
    · intro hkill
      unfold FlowMaster.process_new_request
      simp only [hf, hsp, hdp]
      simp only [hkill, hf1, hr']
      rfl
    · intro hkill hack
      have hf2 : ({ m with state := m.state.setFlow fid (m.requestHooks f0).2, stickyauth_state := (m.requestHooks f0).1, server_playback := some sp } : FlowMaster).state.getFlow fid = some (m.requestHooks f0).2 := hf1
      have hkev := killFlow_events_general { m with state := m.state.setFlow fid (m.requestHooks f0).2, stickyauth_state := (m.requestHooks f0).1, server_playback := some sp } fid (m.requestHooks f0).2 hf2
      have hka := killAcks_unacked { (m.requestHooks f0).2 with error := some { request := (m.requestHooks f0).2.request, msg := "Connection killed", acked := false } } r' hr' hack
      rw [hka] at hkev
      unfold FlowMaster.process_new_request
      simp only [hf, hsp, hdp]
      rw [hkev]
      simp [hkill, hr']

/-- Claim C3: contrary to the spec's "the core never crashes", a response
whose originating request is not in the flow store crashes the master when
sticky cookies are configured: `handle_response` passes the `False` sentinel
of the unknown flow to `process_new_response`, whose sticky-cookie hook
dereferences it — an `AttributeError`.  Without sticky cookies the dangling
response is acknowledged directly as the spec says, and with the flow known
the hook runs normally. -/
theorem C3_dangling_response_crash :
    masterSC.handle_response respA = Except.error PyError.attributeError ∧
    masterBare.handle_response respA
      = Except.ok (masterBare, none, [Event.ackResp (some 5) AckPayload.plain]) ∧
    (masterSCW.handle_response respA).map (fun t => (t.2.1, t.2.2))
      = Except.ok (some 1, [Event.stickyCookieResponseHook]) :=
  ⟨rfl, rfl, rfl⟩

/-- Claim C4 (amended): `process_new_request` runs the sticky cookie, sticky
auth, anticache and anticomp hooks in order, then server playback; on a
playback miss with `kill_nonreplay` set the flow is killed (its request
acknowledged with a null and the kill error reported); on a miss without
`kill_nonreplay` the request is acknowledged — but when no server-playback
engine is configured the hooks run and *no* acknowledgement is issued at
all. -/
theorem C4_amended (m : FlowMaster) (fid : Nat) (f0 : Flow)
    (hf : m.state.getFlow fid = some f0) :
    (m.server_playback = none →
      m.process_new_request fid
        = ({ m with state := m.state.setFlow fid (specHookPipeline m f0).2, stickyauth_state := (specHookPipeline m f0).1 }, [])) ∧
    (∀ sp r', m.server_playback = some sp →
      (specHookPipeline m f0).2.request = some r' →
      assocGet sp.fmap (requestKey sp.headers r') = none →
      (m.kill_nonreplay = false →
        (m.process_new_request fid).2 = [Event.ackReq r'.rid AckPayload.plain]) ∧
      (m.kill_nonreplay = true → r'.acked = false →
        (m.process_new_request fid).2
          = [Event.ackReq r'.rid AckPayload.withNull, Event.ackErr (some r'.rid)])) :=
  process_new_request_cases m fid f0 hf

/-- Claim C4, counterexample: with no server-playback engine configured,
`process_new_request` does not acknowledge the request — the event list is
empty and the stored request's `acked` marker stays unset. -/
theorem C4_counterexample :
    (masterW.process_new_request 1).2 = [] ∧
    ((masterW.process_new_request 1).1.state.getFlow 1).map (fun g => g.request.map (·.acked))
      = some (some false) :=
  ⟨rfl, rfl⟩

/-- Claim C4, witness: the amended statement applied to the bare master
holding the pending `flowReq`. -/
theorem C4_witness :
    masterW.process_new_request 1
      = ({ masterW with state := masterW.state.setFlow 1 (specHookPipeline masterW flowReq).2, stickyauth_state := (specHookPipeline masterW flowReq).1 }, []) :=
  (C4_amended masterW 1 flowReq rfl).1 rfl

/-- Claim C2, counterexample: without server playback a request receives
*zero* acknowledgements over its complete lifecycle, not exactly one — the
request stage emits no events, the response stage emits no events, and after
both stages the stored request's and response's `acked` markers are still
unset.  Moreover the playback acknowledgement is issued without consulting
the `acked` marker: a hit on an already-acknowledged request acknowledges it
a second time. -/
theorem C2_counterexample :
    (masterBare.handle_request reqA).2.2 = [] ∧
    ((masterBare.handle_request reqA).1.handle_response respA).map (fun t => t.2.2)
      = Except.ok [] ∧
    ((masterBare.handle_request reqA).1.handle_response respA).map
        (fun t => (t.1.state.getFlow 0).map (fun g => (g.request.map (·.acked), g.response.map (·.acked))))
      = Except.ok (some (some false, some false)) ∧
    (masterHit.state.getFlow 1).map (fun g => g.request.map (·.acked)) = some (some true) ∧
    (masterHit.do_server_playback 1).2.2 = [Event.ackReq 5 AckPayload.withResponse] :=
  ⟨rfl, rfl, rfl, rfl, rfl⟩

/-- Claim C2 (amended): the `acked` marker is consulted on the interception
and kill paths — `accept_intercept` acknowledges the request only when it is
unacknowledged, else the response only when it is unacknowledged, marking the
acknowledged artifact, and `kill`'s acknowledgement step does likewise with
null payloads — but with no server-playback engine configured
`process_new_request` issues no acknowledgement at all. -/
theorem C2_amended (f : Flow) (r : Request) (s : Response)
    (hr : f.request = some r) (hs : f.response = some s) :
    (r.acked = false → f.accept_intercept
        = ({ f with request := some { r with acked := true }, intercepting := false },
           [Event.ackReq r.rid AckPayload.plain])) ∧
    (r.acked = true → s.acked = false → f.accept_intercept
        = ({ f with response := some { s with acked := true }, intercepting := false },
           [Event.ackResp (s.request.map (·.rid)) AckPayload.plain])) ∧
    (r.acked = true → s.acked = true →
      f.accept_intercept = ({ f with intercepting := false }, [])) ∧
    (r.acked = true → s.acked = true → f.killAcks = (f, [])) ∧
    (r.acked = true → s.acked = false → f.killAcks
        = ({ f with response := some { s with acked := true } },
           [Event.ackResp (s.request.map (·.rid)) AckPayload.withNull])) ∧
    (∀ (m : FlowMaster) (fid : Nat), m.server_playback = none →
      (m.process_new_request fid).2 = []) := by
  refine ⟨?_, ?_, ?_, ?_, ?_, fun m fid h => process_no_playback_events m fid h⟩
  · intro h
    unfold Flow.accept_intercept
    rw [hr]
    simp [h]
  · intro h1 h2
    unfold Flow.accept_intercept
    rw [hr]
    simp [h1, hs, h2]
  · intro h1 h2
    unfold Flow.accept_intercept
    rw [hr]
    simp [h1, hs, h2]
  · intro h1 h2
    exact (killAcks_acked f r hr h1).trans (killAckResp_acked f s hs h2)
  · intro h1 h2
    exact (killAcks_acked f r hr h1).trans (killAckResp_unacked f s hs h2)

/-- Claim C2, witness: the amended statement's interception arm applied to
the complete fixture flow, whose pending request is unacknowledged. -/
theorem C2_witness :
    flowW.accept_intercept
      = ({ flowW with request := some { reqA with acked := true }, intercepting := false },
         [Event.ackReq 5 AckPayload.plain]) :=
  (C2_amended flowW reqA respA rfl rfl).1 rfl

theorem mem_fid_unique (L : List Flow) (hn : (L.map (·.fid)).Nodup)
    (f g : Flow) (hf : f ∈ L) (hg : g ∈ L) (hfg : f.fid = g.fid) : f = g :=
  List.inj_on_of_nodup_map hn hf hg hfg

theorem filtmap_subst (L : List Flow) (fid : Nat) (f f' : Flow) (lim : Option FiltPred)
    (huni : ∀ g ∈ L, g.fid = fid → g = f)
    (hfid : f'.fid = f.fid)
    (hfm : f'.fmatch lim = f.fmatch lim) :
    (((L.map (fun g => if g.fid = fid then f' else g)).filter (fun g => g.fmatch lim)).map (·.fid))
      = ((L.filter (fun g => g.fmatch lim)).map (·.fid)) := by
  induction L with
  | nil => rfl
  | cons x L ih =>
    have huni' : ∀ g ∈ L, g.fid = fid → g = f :=
      fun g hg => huni g (List.mem_cons_of_mem x hg)
    by_cases hx : x.fid = fid
    · have hxf : x = f := huni x (List.mem_cons_self x L) hx
      subst hxf
      rw [List.map_cons, if_pos hx, List.filter_cons, List.filter_cons, hfm]
      cases hpf : x.fmatch lim with
      | true => simp [ih huni', hfid]
      | false => simp [ih huni']
    · rw [List.map_cons, if_neg hx, List.filter_cons, List.filter_cons]
      cases hpx : x.fmatch lim with
      | true => simp [ih huni']
      | false => simp [ih huni']

theorem fidmap_subst (L : List Flow) (fid : Nat) (f f' : Flow)
    (huni : ∀ g ∈ L, g.fid = fid → g = f) (hfid : f'.fid = f.fid) :
    (L.map (fun g => if g.fid = fid then f' else g)).map (·.fid) = L.map (·.fid) := by
  rw [List.map_map]
  refine List.map_congr_left ?_
  intro a ha
  by_cases hx : a.fid = fid
  · have haf : a = f := huni a ha hx
    simp only [Function.comp_apply]
    rw [if_pos hx, hfid, haf]
  · simp only [Function.comp_apply]
    rw [if_neg hx]

theorem filtmap_eraseP_mem (L : List Flow) (fid : Nat) (f : Flow) (lim : Option FiltPred)
    (huni : ∀ g ∈ L, g.fid = fid → g = f)
    (hm : f.fmatch lim = true) :
    ((L.eraseP (fun g => decide (g.fid = fid))).filter (fun g => g.fmatch lim)).map (·.fid)
      = ((L.filter (fun g => g.fmatch lim)).map (·.fid)).erase fid := by
  induction L with
  | nil => rfl
  | cons x L ih =>
    have huni' : ∀ g ∈ L, g.fid = fid → g = f :=
      fun g hg => huni g (List.mem_cons_of_mem x hg)
    by_cases hx : x.fid = fid
    · have hxf : x = f := huni x (List.mem_cons_self x L) hx
      subst hxf
      rw [List.eraseP_cons_of_pos (by simpa using hx), List.filter_cons, hm]
      simp [hx, List.erase_cons_head]
    · rw [List.eraseP_cons_of_neg (by simpa using hx), List.filter_cons, List.filter_cons]
      cases hpx : x.fmatch lim with
      | true =>
        simp only [if_true, List.map_cons]
        rw [List.erase_cons_tail (by simp [hx]), ih huni']
      | false => simp [ih huni']

theorem filtmap_eraseP_nomatch (L : List Flow) (fid : Nat) (f : Flow) (lim : Option FiltPred)
    (huni : ∀ g ∈ L, g.fid = fid → g = f)
    (hm : f.fmatch lim = false) :
    ((L.eraseP (fun g => decide (g.fid = fid))).filter (fun g => g.fmatch lim)).map (·.fid)
      = ((L.filter (fun g => g.fmatch lim)).map (·.fid)) := by
  induction L with
  | nil => rfl
  | cons x L ih =>
    have huni' : ∀ g ∈ L, g.fid = fid → g = f :=
      fun g hg => huni g (List.mem_cons_of_mem x hg)
    by_cases hx : x.fid = fid
    · have hxf : x = f := huni x (List.mem_cons_self x L) hx
      subst hxf
      rw [List.eraseP_cons_of_pos (by simpa using hx), List.filter_cons, hm]
      simp
    · rw [List.eraseP_cons_of_neg (by simpa using hx), List.filter_cons, List.filter_cons]
      cases hpx : x.fmatch lim with
      | true => simp [ih huni']
      | false => simp [ih huni']

theorem add_request_inv (st : StateM) (r : Request)
    (hv : st.viewEq) (hw : st.wfFids) :
    (st.add_request r).1.viewEq ∧ (st.add_request r).1.wfFids := by
  obtain ⟨hn, hb⟩ := hw
  have hv' : st.view = (st._flow_list.filter (fun f => f.fmatch st._limit)).map (·.fid) := hv
  have hnotin : st.nextFid ∉ st._flow_list.map (·.fid) := by
    intro hmem
    obtain ⟨g, hg, hgf⟩ := List.mem_map.mp hmem
    have := hb g hg
    omega
  have hnodup : ((st._flow_list ++ [(⟨st.nextFid, some r, none, none, false, none⟩ : Flow)]).map (·.fid)).Nodup := by
    rw [List.map_append]
    rw [List.nodup_append]
    refine ⟨hn, List.nodup_singleton _, ?_⟩
    intro a ha hmem
    simp only [List.map_cons, List.map_nil, List.mem_singleton] at hmem
    rw [hmem] at ha
    exact hnotin ha
  have hbound : ∀ g ∈ st._flow_list ++ [(⟨st.nextFid, some r, none, none, false, none⟩ : Flow)], g.fid < st.nextFid + 1 := by
    intro g hg
    rcases List.mem_append.mp hg with h | h
    · exact Nat.lt_succ_of_lt (hb g h)
    · simp only [List.mem_singleton] at h
      rw [h]
      exact Nat.lt_succ_self _
  simp only [StateM.add_request]
  cases hm : Flow.fmatch ⟨st.nextFid, some r, none, none, false, none⟩ st._limit with
  | true =>
    simp only [if_true]
    refine ⟨?_, hnodup, hbound⟩
    show st.view ++ [st.nextFid]
        = ((st._flow_list ++ [(⟨st.nextFid, some r, none, none, false, none⟩ : Flow)]).filter
            (fun f => f.fmatch st._limit)).map (·.fid)
    rw [List.filter_append, List.map_append, hv']
    congr 1
    rw [List.filter_cons, hm]
    rfl
  | false =>
    simp only [Bool.false_eq_true, if_false]
    refine ⟨?_, hnodup, hbound⟩
    show st.view
        = ((st._flow_list ++ [(⟨st.nextFid, some r, none, none, false, none⟩ : Flow)]).filter
            (fun f => f.fmatch st._limit)).map (·.fid)
    rw [List.filter_append, List.map_append, hv']
    rw [List.filter_cons, hm]
    simp

theorem recalculate_view_viewEq (st : StateM) : (st.recalculate_view).viewEq := by
  unfold StateM.recalculate_view
  cases hl : st._limit with
  | some p => exact rfl
  | none =>
    show st._flow_list.map (·.fid)
        = (st._flow_list.filter (fun f => f.fmatch none)).map (·.fid)
    rw [show List.filter (fun f => Flow.fmatch f none) st._flow_list = st._flow_list
        from List.filter_eq_self.mpr (fun a _ => rfl)]

theorem recalculate_view_wf (st : StateM) (hw : st.wfFids) :
    (st.recalculate_view).wfFids := by
  unfold StateM.recalculate_view
  cases st._limit with
  | some p => exact hw
  | none => exact hw

theorem set_limit_inv (st : StateM) (arg : Option (String × FiltPred))
    (hw : st.wfFids) :
    (st.set_limit arg).viewEq ∧ (st.set_limit arg).wfFids := by
  unfold StateM.set_limit
  cases arg with
  | some a =>
    cases a with
    | mk txt p => exact ⟨recalculate_view_viewEq _, recalculate_view_wf _ hw⟩
  | none => exact ⟨recalculate_view_viewEq _, recalculate_view_wf _ hw⟩

theorem foldl_wf_step (step : StateM → Flow → StateM)
    (hstep : ∀ acc f, (step acc f)._flow_list = acc._flow_list ++ [{ f with fid := acc.nextFid }]
      ∧ (step acc f).nextFid = acc.nextFid + 1) :
    ∀ (fs : List Flow) (st : StateM), st.wfFids → (fs.foldl step st).wfFids := by
  intro fs
  induction fs with
  | nil => intro st hw; exact hw
  | cons f fs ih =>
    intro st hw
    rw [List.foldl_cons]
    apply ih
    obtain ⟨h1, h2⟩ := hstep st f
    obtain ⟨hn, hb⟩ := hw
    constructor
    · rw [h1, List.map_append, List.nodup_append]
      refine ⟨hn, List.nodup_singleton _, ?_⟩
      intro a ha hmem
      simp only [List.map_cons, List.map_nil, List.mem_singleton] at hmem
      obtain ⟨g, hg, hga⟩ := List.mem_map.mp ha
      have := hb g hg
      omega
    · rw [h1, h2]
      intro g hg
      rcases List.mem_append.mp hg with h | h
      · exact Nat.lt_succ_of_lt (hb g h)
      · simp only [List.mem_singleton] at h
        rw [h]
        exact Nat.lt_succ_self _

theorem load_flows_inv (st : StateM) (fs : List Flow) (hw : st.wfFids) :
    (st.load_flows fs).viewEq ∧ (st.load_flows fs).wfFids := by
  unfold StateM.load_flows
  exact ⟨recalculate_view_viewEq _,
    recalculate_view_wf _ (foldl_wf_step _ (fun acc f => ⟨rfl, rfl⟩) fs st hw)⟩

theorem add_response_inv (st : StateM) (resp : Response)
    (hv : st.viewEq) (hw : st.wfFids)
    (hst : StateOp.stableAt st (StateOp.add_response resp) = true) :
    (st.add_response resp).1.viewEq ∧ (st.add_response resp).1.wfFids := by
  obtain ⟨hn, hb⟩ := hw
  unfold StateM.add_response
  cases hk : assocGet st._flow_map (resp.request.map (·.rid)) with
  | none =>
    simp only [hk]
    exact ⟨hv, ⟨hn, hb⟩⟩
  | some fid =>
    simp only [hk]
    cases hg : st.getFlow fid with
    | none =>
      simp only [hg]
      exact ⟨hv, ⟨hn, hb⟩⟩
    | some f =>
      simp only [hg]
      have hfmem : f ∈ st._flow_list := List.mem_of_find?_eq_some hg
      have hffid : f.fid = fid := getFlow_some_fid st fid f hg
      have huni : ∀ g ∈ st._flow_list, g.fid = fid → g = f := by
        intro g hgL hgf
        exact mem_fid_unique st._flow_list hn g f hgL hfmem (by rw [hgf, hffid])
      have hstab : Flow.fmatch { f with response := some resp } st._limit = f.fmatch st._limit := by
        have h1 : StateOp.stableAt st (StateOp.add_response resp) = true := hst
        unfold StateOp.stableAt at h1
        simp only [hk, hg] at h1
        exact of_decide_eq_true h1
      have hcond : (Flow.fmatch { f with response := some resp } st._limit &&
          decide (fid ∉ (st.setFlow fid { f with response := some resp }).view)) = false := by
        cases hc : f.fmatch st._limit with
        | false => rw [hstab, hc]; simp
        | true =>
          have hmemv : fid ∈ st.view := by
            have hv' : st.view = (st._flow_list.filter (fun x => x.fmatch st._limit)).map (·.fid) := hv
            rw [hv']
            exact List.mem_map.mpr ⟨f, List.mem_filter.mpr ⟨hfmem, hc⟩, hffid⟩
          have hmemv' : fid ∈ (st.setFlow fid { f with response := some resp }).view := hmemv
          rw [hstab, hc]
          simp [hmemv']
      rw [hcond]
      simp only [Bool.false_eq_true, if_false]
      refine ⟨?_, ?_, ?_⟩
      · show st.view
            = ((st._flow_list.map (fun g => if g.fid = fid then { f with response := some resp } else g)).filter
                (fun x => x.fmatch st._limit)).map (·.fid)
        rw [filtmap_subst st._flow_list fid f { f with response := some resp } st._limit huni rfl hstab]
        exact hv
      · show ((st._flow_list.map (fun g => if g.fid = fid then { f with response := some resp } else g)).map (·.fid)).Nodup
        rw [fidmap_subst st._flow_list fid f { f with response := some resp } huni rfl]
        exact hn
      · intro g hg2
        have hg3 : g ∈ st._flow_list.map (fun g => if g.fid = fid then { f with response := some resp } else g) := hg2
        obtain ⟨x, hx, hxg⟩ := List.mem_map.mp hg3
        by_cases hxx : x.fid = fid
        · rw [← hxg]
          simp only [if_pos hxx]
          exact hb f hfmem
        · rw [← hxg]
          simp only [if_neg hxx]
          exact hb x hx

theorem add_error_inv (st : StateM) (e : Error)
    (hv : st.viewEq) (hw : st.wfFids) :
    (st.add_error e).1.viewEq ∧ (st.add_error e).1.wfFids := by
  obtain ⟨hn, hb⟩ := hw
  unfold StateM.add_error
  cases he : e.request with
  | none =>
    simp only [he]
    exact ⟨hv, ⟨hn, hb⟩⟩
  | some er =>
    simp only [he]
    cases hk : assocGet st._flow_map (some er.rid) with
    | none =>
      simp only [hk]
      exact ⟨hv, ⟨hn, hb⟩⟩
    | some fid =>
      simp only [hk]
      cases hg : st.getFlow fid with
      | none =>
        simp only [hg]
        exact ⟨hv, ⟨hn, hb⟩⟩
      | some f =>
        simp only [hg]
        have hfmem : f ∈ st._flow_list := List.mem_of_find?_eq_some hg
        have hffid : f.fid = fid := getFlow_some_fid st fid f hg
        have huni : ∀ g ∈ st._flow_list, g.fid = fid → g = f := by
          intro g hgL hgf
          exact mem_fid_unique st._flow_list hn g f hgL hfmem (by rw [hgf, hffid])
        have hstab : Flow.fmatch { f with error := some e } st._limit = f.fmatch st._limit := rfl
        have hcond : (Flow.fmatch { f with error := some e } st._limit &&
            decide (fid ∉ (st.setFlow fid { f with error := some e }).view)) = false := by
          cases hc : f.fmatch st._limit with
          | false => rw [hstab, hc]; simp
          | true =>
            have hmemv : fid ∈ st.view := by
              have hv' : st.view = (st._flow_list.filter (fun x => x.fmatch st._limit)).map (·.fid) := hv
              rw [hv']
              exact List.mem_map.mpr ⟨f, List.mem_filter.mpr ⟨hfmem, hc⟩, hffid⟩
            have hmemv' : fid ∈ (st.setFlow fid { f with error := some e }).view := hmemv
            rw [hstab, hc]
            simp [hmemv']
        rw [hcond]
        simp only [Bool.false_eq_true, if_false]
        refine ⟨?_, ?_, ?_⟩
        · show st.view
              = ((st._flow_list.map (fun g => if g.fid = fid then { f with error := some e } else g)).filter
                  (fun x => x.fmatch st._limit)).map (·.fid)
          rw [filtmap_subst st._flow_list fid f { f with error := some e } st._limit huni rfl hstab]
          exact hv
        · show ((st._flow_list.map (fun g => if g.fid = fid then { f with error := some e } else g)).map (·.fid)).Nodup
          rw [fidmap_subst st._flow_list fid f { f with error := some e } huni rfl]
          exact hn
        · intro g hg2
          have hg3 : g ∈ st._flow_list.map (fun g => if g.fid = fid then { f with error := some e } else g) := hg2
          obtain ⟨x, hx, hxg⟩ := List.mem_map.mp hg3
          by_cases hxx : x.fid = fid
          · rw [← hxg]
            simp only [if_pos hxx]
            exact hb f hfmem
          · rw [← hxg]
            simp only [if_neg hxx]
            exact hb x hx

theorem delete_flow_eq (st : StateM) (fid : Nat) (f : Flow)
    (hg : st.getFlow fid = some f) :
    st.delete_flow fid
      = (if f.fmatch st._limit then
           (if fid ∈ st.view then
              some { st with
                _flow_map := (if assocHas st._flow_map (f.request.map (·.rid)) then
                    assocErase st._flow_map (f.request.map (·.rid)) else st._flow_map),
                _flow_list := st._flow_list.eraseP (fun g => decide (g.fid = fid)),
                view := st.view.erase fid }
            else none)
         else
           some { st with
             _flow_map := (if assocHas st._flow_map (f.request.map (·.rid)) then
                 assocErase st._flow_map (f.request.map (·.rid)) else st._flow_map),
             _flow_list := st._flow_list.eraseP (fun g => decide (g.fid = fid)) }) := by
  unfold StateM.delete_flow
  rw [hg]

theorem delete_flow_inv (st : StateM) (fid : Nat) (st' : StateM)
    (hv : st.viewEq) (hw : st.wfFids)
    (hdel : st.delete_flow fid = some st') :
    st'.viewEq ∧ st'.wfFids := by
  obtain ⟨hn, hb⟩ := hw
  cases hg : st.getFlow fid with
  | none =>
    unfold StateM.delete_flow at hdel
    rw [hg] at hdel
    exact Option.noConfusion hdel
  | some f =>
    rw [delete_flow_eq st fid f hg] at hdel
    have hfmem : f ∈ st._flow_list := List.mem_of_find?_eq_some hg
    have hffid : f.fid = fid := getFlow_some_fid st fid f hg
    have huni : ∀ g ∈ st._flow_list, g.fid = fid → g = f := by
      intro g hgL hgf
      exact mem_fid_unique st._flow_list hn g f hgL hfmem (by rw [hgf, hffid])
    have hsub : List.Sublist (st._flow_list.eraseP (fun g => decide (g.fid = fid))) st._flow_list :=
      List.eraseP_sublist _
    have hnod' : ((st._flow_list.eraseP (fun g => decide (g.fid = fid))).map (·.fid)).Nodup :=
      List.Nodup.sublist (hsub.map _) hn
    have hbnd' : ∀ g ∈ st._flow_list.eraseP (fun g => decide (g.fid = fid)), g.fid < st.nextFid :=
      fun g hg2 => hb g (hsub.subset hg2)
    cases hm : f.fmatch st._limit with
    | true =>
      rw [hm, if_pos rfl] at hdel
      by_cases hmemv : fid ∈ st.view
      · rw [if_pos hmemv] at hdel
        injection hdel with h'
        rw [← h']
        refine ⟨?_, hnod', hbnd'⟩
        show st.view.erase fid
            = ((st._flow_list.eraseP (fun g => decide (g.fid = fid))).filter
                (fun x => x.fmatch st._limit)).map (·.fid)
        rw [filtmap_eraseP_mem st._flow_list fid f st._limit huni hm]
        have hv' : st.view = (st._flow_list.filter (fun x => x.fmatch st._limit)).map (·.fid) := hv
        rw [hv']
      · rw [if_neg hmemv] at hdel
        exact Option.noConfusion hdel
    | false =>
      rw [hm, if_neg (by simp)] at hdel
      injection hdel with h'
      rw [← h']
      refine ⟨?_, hnod', hbnd'⟩
      show st.view
          = ((st._flow_list.eraseP (fun g => decide (g.fid = fid))).filter
              (fun x => x.fmatch st._limit)).map (·.fid)
      rw [filtmap_eraseP_nomatch st._flow_list fid f st._limit huni hm]
      exact hv

theorem foldlM_delete_inv (l : List Nat) :
    ∀ (st st' : StateM), st.viewEq → st.wfFids →
      List.foldlM (fun acc fid => StateM.delete_flow acc fid) st l = some st' →
      st'.viewEq ∧ st'.wfFids := by
  induction l with
  | nil =>
    intro st st' hv hw h
    injection h with h'
    rw [← h']
    exact ⟨hv, hw⟩
  | cons a l ih =>
    intro st st' hv hw h
    rw [List.foldlM_cons] at h
    cases hd : st.delete_flow a with
    | none =>
      rw [hd] at h
      exact Option.noConfusion h
    | some st1 =>
      rw [hd] at h
      have h2 : List.foldlM (fun acc fid => StateM.delete_flow acc fid) st1 l = some st' := h
      obtain ⟨hv1, hw1⟩ := delete_flow_inv st a st1 hv hw hd
      exact ih st1 st' hv1 hw1 h2

theorem clear_inv (st st' : StateM) (hv : st.viewEq) (hw : st.wfFids)
    (h : st.clear = some st') : st'.viewEq ∧ st'.wfFids := by
  unfold StateM.clear at h
  exact foldlM_delete_inv _ st st' hv hw h

theorem step_inv (st : StateM) (op : StateOp) (st' : StateM)
    (hv : st.viewEq) (hw : st.wfFids)
    (hst : StateOp.stableAt st op = true)
    (h : st.step op = some st') : st'.viewEq ∧ st'.wfFids := by
  cases op with
  | add_request r =>
    injection h with h'
    rw [← h']
    exact add_request_inv st r hv hw
  | add_response resp =>
    injection h with h'
    rw [← h']
    exact add_response_inv st resp hv hw hst
  | add_error e =>
    injection h with h'
    rw [← h']
    exact add_error_inv st e hv hw
  | delete_flow fid => exact delete_flow_inv st fid st' hv hw h
  | clear => exact clear_inv st st' hv hw h
  | set_limit arg =>
    injection h with h'
    rw [← h']
    exact set_limit_inv st arg hw
  | load_flows fs =>
    injection h with h'
    rw [← h']
    exact load_flows_inv st fs hw

theorem run_inv (ops : List StateOp) :
    ∀ (st st' : StateM), st.viewEq → st.wfFids →
      StateM.allStable st ops = true →
      StateM.run st ops = some st' → st'.viewEq ∧ st'.wfFids := by
  induction ops with
  | nil =>
    intro st st' hv hw _ h
    injection h with h'
    rw [← h']
    exact ⟨hv, hw⟩
  | cons op ops ih =>
    intro st st' hv hw hstab h
    unfold StateM.run at h
    unfold StateM.allStable at hstab
    cases hs : st.step op with
    | none =>
      rw [hs] at h
      exact Option.noConfusion h
    | some st1 =>
      simp only [hs] at h hstab
      rw [Bool.and_eq_true] at hstab
      obtain ⟨hs1, hs2⟩ := hstab
      obtain ⟨hv1, hw1⟩ := step_inv st op st1 hv hw hs1 hs
      exact ih st1 st' hv1 hw1 hs2 h

/-- Claim C1, counterexample: the view invariant does not survive every
mutation.  With a limit whose verdict differs between a flow's request and
its response, `add_response` leaves the now-unmatching flow in the view
(`State.add_response` only ever appends to the view), so afterwards the view
is not the filtered flow list. -/
theorem C1_counterexample :
    (StateM.run StateM.initial
        [StateOp.set_limit (some ("~q", predReqOnly)), StateOp.add_request reqA,
         StateOp.add_response respA]).map StateM.viewInv = some false := rfl

/-- Claim C1 (amended): for every sequence of store operations each of whose
`add_response` steps leaves the limit's verdict on its target flow unchanged
(`allStable`), the state reached from the initial store satisfies the view
invariant: the view equals the flow list filtered by the current limit, in
list order. -/
theorem C1_amended (ops : List StateOp) (st' : StateM)
    (hstable : StateM.allStable StateM.initial ops = true)
    (hrun : StateM.run StateM.initial ops = some st') :
    st'.viewInv = true := by
  have h0v : StateM.initial.viewEq := rfl
  have h0w : StateM.initial.wfFids := by
    constructor
    · exact List.nodup_nil
    · intro f hf
      cases hf
  obtain ⟨hv, _⟩ := run_inv ops StateM.initial st' h0v h0w hstable hrun
  exact decide_eq_true hv

/-- Claim C1, witness: the amended invariant evaluated after a single
`add_request` from the initial store. -/
theorem C1_witness :
    ((StateM.initial.add_request reqA).1).viewInv = true :=
  C1_amended [StateOp.add_request reqA] (StateM.initial.add_request reqA).1 rfl rfl

end Mitm
